import Mathlib

/-
Verification of the StarRocks lake transaction-log applier
(`be/src/storage/lake/txn_log_applier.cpp`) against its specification.

The C++ classes `PrimaryKeyTxnLogApplier` and `NonPrimaryKeyTxnLogApplier`
are shallowly embedded as pure Lean functions over explicit state records.
External collaborators (the update manager's publish routines, the primary
index cache, the recover routine, delete-vector loading and the metadata
store) are modelled as oracle fields of an environment record `PkEnv`: each
oracle yields the status (and, for publish, the resulting builder recover
flag) the collaborator would return, indexed by call count where successive
calls may differ.  The applier's own in-memory mutations - the only
behaviour specified here - are transcribed from the source.
-/

/-- Recover flag values carried by the meta-file builder (`RecoverFlag` in
the source). -/
inductive RecoverFlag where
  | OK
  | RECOVER
  | RECOVER_WITH_PUBLISH
deriving DecidableEq, Repr

/-- Return status, mirroring the `starrocks::Status` values produced in
`txn_log_applier.cpp`: `ok`, `internalError`, `corruption`, plus an
abstract `otherError` standing for any status propagated verbatim from an
external collaborator. -/
inductive Status where
  | ok
  | internalError (msg : String)
  | corruption (msg : String)
  | otherError (code : Nat)
deriving DecidableEq, Repr

/-- The fields of `RowsetMetadataPB` read or written by the applier. -/
structure RowsetMetadata where
  id : Nat
  segments_size : Nat
  num_rows : Nat
  has_delete_predicate : Bool
deriving DecidableEq, Repr

/-- The fields of `TabletMetadataPB` read or written by the applier.
`schema`, `delvec_meta` and `source_schema` are opaque payloads (the
applier only copies them around), so they are modelled as naturals. -/
structure TabletMetadata where
  id : Nat
  version : Int
  schema : Nat
  enable_persistent_index : Bool
  rowsets : List RowsetMetadata
  next_rowset_id : Nat
  cumulative_point : Nat
  delvec_meta : Option Nat
  compaction_inputs : List RowsetMetadata
  source_schema : Option Nat
deriving DecidableEq, Repr

/-- Default `RowsetMetadataPB` instance, returned by protobuf accessors for
an unset message field. -/
def defaultRowset : RowsetMetadata :=
  { id := 0, segments_size := 0, num_rows := 0, has_delete_predicate := false }

/-- `TxnLogPB_OpWrite`: the fields consumed by the applier. -/
structure OpWrite where
  rowset : Option RowsetMetadata
  dels_size : Nat
deriving DecidableEq, Repr

/-- Protobuf accessor `op_write.rowset()`: yields the default instance when
the field is unset. -/
def OpWrite.rowsetD (w : OpWrite) : RowsetMetadata := w.rowset.getD defaultRowset

/-- `TxnLogPB_OpCompaction`: input rowset ids plus optional output rowset. -/
structure OpCompaction where
  input_rowsets : List Nat
  output_rowset : Option RowsetMetadata
deriving DecidableEq, Repr

/-- Protobuf accessor `op_compaction.output_rowset()`. -/
def OpCompaction.output_rowsetD (op : OpCompaction) : RowsetMetadata :=
  op.output_rowset.getD defaultRowset

/-- The condition `op_compaction.has_output_rowset() &&
op_compaction.output_rowset().num_rows() > 0` guarding both the splice
replacement and the cumulative-point increment. -/
def OpCompaction.outputWithRows (op : OpCompaction) : Bool :=
  match op.output_rowset with
  | some r => decide (0 < r.num_rows)
  | none => false

/-- `TxnLogPB_OpSchemaChange`. -/
structure OpSchemaChange where
  rowsets : List RowsetMetadata
  delvec_meta : Option Nat
  linked_segment : Bool
  alter_version : Int
deriving DecidableEq, Repr

/-- One entry of `op_alter_metadata.metadata_update_infos()`. -/
structure MetadataUpdateInfo where
  enable_persistent_index : Option Bool
  tablet_schema : Option Nat
deriving DecidableEq, Repr

/-- `TxnLogPB_OpAlterMetadata`. -/
structure OpAlterMetadata where
  metadata_update_infos : List MetadataUpdateInfo
deriving DecidableEq, Repr

/-- `ReplicationTxnStatePB`. -/
inductive ReplicationTxnState where
  | TXN_PREPARED
  | TXN_REPLICATED
  | TXN_PUBLISHED
deriving DecidableEq, Repr

/-- `ReplicationTxnStatePB_Name`, used to build the corruption message. -/
def ReplicationTxnStatePB_Name : ReplicationTxnState → String
  | .TXN_PREPARED => "TXN_PREPARED"
  | .TXN_REPLICATED => "TXN_REPLICATED"
  | .TXN_PUBLISHED => "TXN_PUBLISHED"

/-- The `txn_meta` sub-message of `TxnLogPB_OpReplication`. -/
structure ReplicationTxnMeta where
  txn_state : ReplicationTxnState
  snapshot_version : Int
  incremental_snapshot : Bool
  txn_id : Int
deriving DecidableEq, Repr

/-- `TxnLogPB_OpReplication`.  `delvecs` is the `map<segment_id, bytes>`
field, modelled as an association list of (segment id, opaque blob). -/
structure OpReplication where
  txn_meta : ReplicationTxnMeta
  op_writes : List OpWrite
  delvecs : List (Nat × Nat)
  source_schema : Option Nat
deriving DecidableEq, Repr

/-- `TxnLogPB`: a txn id plus at most one of each op field. -/
structure TxnLog where
  txn_id : Int
  op_write : Option OpWrite
  op_compaction : Option OpCompaction
  op_schema_change : Option OpSchemaChange
  op_alter_metadata : Option OpAlterMetadata
  op_replication : Option OpReplication
deriving DecidableEq, Repr

/-- The two `starrocks::config` flags consumed by the applier. -/
structure ApplierConfig where
  enable_size_tiered_compaction_strategy : Bool
  enable_primary_key_recover : Bool
deriving DecidableEq, Repr

/- Error message fragments, matching the fmt format strings of the source. -/

def msg_input_rowset : String := "input rowset "
def msg_not_found : String := " not found"
def msg_not_exist : String := " not exist"
def msg_not_adjacent : String := "input rowset position not adjacent"
def msg_cp_a : String := "new cumulative point: "
def msg_cp_b : String := " exceeds rowset size: "
def msg_bad_state : String := "Invalid txn meta state: "
def msg_mismatch : String := "mismatched snapshot version and new version"

/-- Loop body of `apply_alter_meta_log`: overwrite the persistent-index
flag and/or the schema according to one update info. -/
def alter_meta_update (m : TabletMetadata) (info : MetadataUpdateInfo) :
    TabletMetadata :=
  let m' := match info.enable_persistent_index with
    | some b => { m with enable_persistent_index := b }
    | none => m
  match info.tablet_schema with
    | some sch => { m' with schema := sch }
    | none => m'

/-- Free function `apply_alter_meta_log` (anonymous namespace): for each
update info, overwrite the persistent-index flag and/or the schema.  The
side calls into the update manager and the best-effort index-cache
eviction touch only external caches, not the metadata, and are not
modelled.  Always returns OK. -/
def apply_alter_meta_log (metadata : TabletMetadata) (op : OpAlterMetadata) :
    Status × TabletMetadata :=
  (.ok, op.metadata_update_infos.foldl alter_meta_update metadata)

/-- Loop body shared by both `apply_schema_change_log` handlers: append
one op rowset preserving its id and set `next_rowset_id` to this rowset's
`id + max(1, segments_size)`. -/
def schema_change_add (m : TabletMetadata) (r : RowsetMetadata) :
    TabletMetadata :=
  { m with
    rowsets := m.rowsets ++ [r],
    next_rowset_id := r.id + max 1 r.segments_size }

/-- State of `NonPrimaryKeyTxnLogApplier`: the mutable metadata and the
target version (the `Tablet` handle carries no state used here). -/
structure NonPkState where
  metadata : TabletMetadata
  new_version : Int
deriving DecidableEq, Repr

namespace NonPk

/-- Constructor `NonPrimaryKeyTxnLogApplier(tablet, metadata, new_version)`:
stores the metadata unchanged (in particular it does NOT set
`metadata.version` to the new version). -/
def construct (metadata : TabletMetadata) (new_version : Int) : NonPkState :=
  { metadata := metadata, new_version := new_version }

/-- `NonPrimaryKeyTxnLogApplier::apply_write_log`: when the op has a rowset
with rows or a delete predicate, append it with its id overridden to
`next_rowset_id` and advance `next_rowset_id` by `max(1, segments_size)`. -/
def apply_write_log (w : OpWrite) (s : NonPkState) : Status × NonPkState :=
  match w.rowset with
  | some r =>
      if 0 < r.num_rows ∨ r.has_delete_predicate then
        (.ok, { s with metadata := { s.metadata with
                  rowsets := s.metadata.rowsets ++
                    [{ r with id := s.metadata.next_rowset_id }],
                  next_rowset_id :=
                    s.metadata.next_rowset_id + max 1 r.segments_size } })
      else (.ok, s)
  | none => (.ok, s)

/-- `std::find_if(rowsets.begin() + start, rowsets.end(), Finder{tid})`,
returned as a position in the whole list. -/
def findFrom (rs : List RowsetMetadata) (start : Nat) (tid : Nat) : Option Nat :=
  match List.findIdx? (fun r => r.id == tid) (rs.drop start) with
  | some i => some (start + i)
  | none => none

/-- The safety-check loop of `apply_compaction_log`: walk the remaining
input ids, requiring each to be found exactly one position past the
previous one.  Returns the position of the last input on success. -/
def walk (rs : List RowsetMetadata) : List Nat → Nat → Except String Nat
  | [], pre => .ok pre
  | tid :: rest, pre =>
    match findFrom rs (pre + 1) tid with
    | none => .error (msg_input_rowset ++ toString tid ++ msg_not_exist)
    | some p =>
        if p = pre + 1 then walk rs rest p
        else .error msg_not_adjacent

/-- `NonPrimaryKeyTxnLogApplier::apply_compaction_log`: locate the input
block, move it into `compaction_inputs`, splice in the output rowset (if it
has rows) with a freshly allocated id, and recompute the cumulative point.
Errors after the splice return the already-mutated metadata, mirroring the
in-place C++ mutation. -/
def apply_compaction_log (cfg : ApplierConfig) (op : OpCompaction)
    (s : NonPkState) : Status × NonPkState :=
  match op.input_rowsets with
  | [] => (.ok, s)
  | id0 :: rest =>
    let m := s.metadata
    match List.findIdx? (fun r => r.id == id0) m.rowsets with
    | none => (.internalError (msg_input_rowset ++ toString id0 ++ msg_not_found), s)
    | some first_idx =>
      match walk m.rowsets rest first_idx with
      | .error e => (.internalError e, s)
      | .ok last_pos =>
        let cnt := last_pos + 1 - first_idx
        let block := (m.rowsets.drop first_idx).take cnt
        let ci := m.compaction_inputs ++ block
        let hasOut := op.outputWithRows
        let newRowsets :=
          if hasOut then
            m.rowsets.take first_idx ++
              [{ op.output_rowsetD with id := m.next_rowset_id }] ++
              m.rowsets.drop (first_idx + cnt)
          else
            m.rowsets.take first_idx ++ m.rowsets.drop (first_idx + cnt)
        let newNext :=
          if hasOut then m.next_rowset_id + op.output_rowsetD.segments_size
          else m.next_rowset_id
        let m1 := { m with
          rowsets := newRowsets,
          compaction_inputs := ci,
          next_rowset_id := newNext }
        if cfg.enable_size_tiered_compaction_strategy then
          (.ok, { s with metadata := { m1 with cumulative_point := 0 } })
        else
          let ncp0 :=
            if first_idx ≥ m.cumulative_point then first_idx
            else if m.cumulative_point ≥ op.input_rowsets.length then
              m.cumulative_point - op.input_rowsets.length
            else 0
          let ncp := ncp0 + (if hasOut then 1 else 0)
          if ncp > m1.rowsets.length then
            (.internalError (msg_cp_a ++ toString ncp ++ msg_cp_b ++
                toString m1.rowsets.length),
             { s with metadata := m1 })
          else
            (.ok, { s with metadata := { m1 with cumulative_point := ncp } })

/-- `NonPrimaryKeyTxnLogApplier::apply_schema_change_log`: append each op
rowset preserving its id, setting `next_rowset_id` to that rowset's
`id + max(1, segments_size)` each time (so the last rowset wins). -/
def apply_schema_change_log (op : OpSchemaChange) (s : NonPkState) :
    Status × NonPkState :=
  (.ok, { s with metadata := op.rowsets.foldl schema_change_add s.metadata })

/-- The `RETURN_IF_ERROR` loop over embedded replication writes. -/
def apply_writes (ws : List OpWrite) (s : NonPkState) : Status × NonPkState :=
  match ws with
  | [] => (.ok, s)
  | w :: rest =>
    let r := apply_write_log w s
    if r.1 = .ok then apply_writes rest r.2 else r

/-- `NonPrimaryKeyTxnLogApplier::apply_replication_log`: framing checks,
then either the incremental path (apply each embedded write) or the full
path (clear rowsets, apply writes, reset the cumulative point and swap the
old rowsets into `compaction_inputs`, discarding its previous contents). -/
def apply_replication_log (op : OpReplication) (s : NonPkState) :
    Status × NonPkState :=
  if op.txn_meta.txn_state ≠ .TXN_REPLICATED then
    (.corruption (msg_bad_state ++ ReplicationTxnStatePB_Name op.txn_meta.txn_state), s)
  else if op.txn_meta.snapshot_version ≠ s.new_version then
    (.corruption msg_mismatch, s)
  else
    let step :=
      if op.txn_meta.incremental_snapshot then
        apply_writes op.op_writes s
      else
        let old := s.metadata.rowsets
        let s1 := { s with metadata := { s.metadata with rowsets := [] } }
        let r := apply_writes op.op_writes s1
        if r.1 = .ok then
          (.ok, { r.2 with metadata := { r.2.metadata with
                     cumulative_point := 0, compaction_inputs := old } })
        else r
    if step.1 = .ok then
      (.ok, match op.source_schema with
            | some sch =>
                { step.2 with metadata := { step.2.metadata with source_schema := some sch } }
            | none => step.2)
    else step

/-- `NonPrimaryKeyTxnLogApplier::apply`: dispatch over present op fields in
source order (write, compaction, schema change, replication, alter),
aborting at the first non-OK status. -/
def apply (cfg : ApplierConfig) (log : TxnLog) (s : NonPkState) :
    Status × NonPkState :=
  let r1 := match log.op_write with
    | some w => apply_write_log w s
    | none => (.ok, s)
  if r1.1 ≠ .ok then r1 else
  let r2 := match log.op_compaction with
    | some op => apply_compaction_log cfg op r1.2
    | none => (.ok, r1.2)
  if r2.1 ≠ .ok then r2 else
  let r3 := match log.op_schema_change with
    | some op => apply_schema_change_log op r2.2
    | none => (.ok, r2.2)
  if r3.1 ≠ .ok then r3 else
  let r4 := match log.op_replication with
    | some op => apply_replication_log op r3.2
    | none => (.ok, r3.2)
  if r4.1 ≠ .ok then r4 else
  match log.op_alter_metadata with
  | some op =>
    let r5 := apply_alter_meta_log r4.2.metadata op
    (r5.1, { r4.2 with metadata := r5.2 })
  | none => (.ok, r4.2)

/-- `NonPrimaryKeyTxnLogApplier::finish`: set the version to `new_version`
and persist via `put_metadata` (whose status is the oracle argument). -/
def finish (putStatus : Status) (s : NonPkState) : Status × NonPkState :=
  (putStatus, { s with metadata := { s.metadata with version := s.new_version } })

end NonPk

/-- Oracle environment for the primary-key applier's external
collaborators.  `publishWrite`/`publishCompaction` are indexed by the
number of previous publish calls of that kind and return the status of
`publish_primary_key_tablet` / `publish_primary_compaction` together with
the recover flag the call leaves on the meta-file builder.
`recoverStatus` is indexed by the number of previous recover invocations.
`delvecLoad` maps (version, blob) to the load status and the loaded
delete-vector token. -/
structure PkEnv where
  enable_primary_key_recover : Bool
  prepareStatus : Status
  publishWrite : Nat → Status × RecoverFlag
  publishCompaction : Nat → Status × RecoverFlag
  recoverStatus : Nat → Status
  delvecLoad : Int → Nat → Status × Nat
  putStatus : Status
  commitStatus : Status
  finalizeStatus : Status

/-- State of `PrimaryKeyTxnLogApplier`: the mutable metadata plus the
builder's recover flag and appended delete vectors, the pinned-index flag,
call counters for the external publish / recover / index-unload calls
(ghost instrumentation for the oracles), the log of checkpoint metadata
writes, and the finalisation flag. -/
structure PkState where
  metadata : TabletMetadata
  base_version : Int
  new_version : Int
  max_txn_id : Int
  recover_flag : RecoverFlag
  builder_delvecs : List (Nat × Nat)
  index_pinned : Bool
  publish_write_calls : Nat
  publish_compaction_calls : Nat
  recover_calls : Nat
  index_unloads : Nat
  put_log : List TabletMetadata
  has_finalized : Bool
deriving DecidableEq, Repr

namespace Pk

/-- Constructor `PrimaryKeyTxnLogApplier(tablet, metadata, new_version)`:
records `metadata->version()` as the base version, then sets the metadata
version to `new_version`. -/
def construct (metadata : TabletMetadata) (new_version : Int) : PkState :=
  { metadata := { metadata with version := new_version },
    base_version := metadata.version,
    new_version := new_version,
    max_txn_id := 0,
    recover_flag := .OK,
    builder_delvecs := [],
    index_pinned := false,
    publish_write_calls := 0,
    publish_compaction_calls := 0,
    recover_calls := 0,
    index_unloads := 0,
    put_log := [],
    has_finalized := false }

/-- `PrimaryKeyTxnLogApplier::apply_write_log`: pin the primary index if
not yet pinned, fast-skip an empty op (no deletes, no rows, no delete
predicate), otherwise delegate to `publish_primary_key_tablet` (oracle).
The pk-index shard lock acquire/release has no modelled effect. -/
def apply_write_log (env : PkEnv) (w : OpWrite) (txn : Int) (s : PkState) :
    Status × PkState :=
  let rp :=
    if s.index_pinned then (Status.ok, s)
    else match env.prepareStatus with
      | .ok => (Status.ok, { s with index_pinned := true })
      | e => (e, s)
  if rp.1 ≠ .ok then rp
  else if w.dels_size = 0 ∧ w.rowsetD.num_rows = 0 ∧
          w.rowsetD.has_delete_predicate = false then
    (.ok, rp.2)
  else
    let pub := env.publishWrite rp.2.publish_write_calls
    (pub.1, { rp.2 with
      publish_write_calls := rp.2.publish_write_calls + 1,
      recover_flag := pub.2 })

/-- `PrimaryKeyTxnLogApplier::apply_compaction_log`: pin the primary index
if needed, fast-skip when the input list is empty, otherwise delegate to
`publish_primary_compaction` (oracle). -/
def apply_compaction_log (env : PkEnv) (op : OpCompaction) (txn : Int)
    (s : PkState) : Status × PkState :=
  let rp :=
    if s.index_pinned then (Status.ok, s)
    else match env.prepareStatus with
      | .ok => (Status.ok, { s with index_pinned := true })
      | e => (e, s)
  if rp.1 ≠ .ok then rp
  else if op.input_rowsets.isEmpty then (.ok, rp.2)
  else
    let pub := env.publishCompaction rp.2.publish_compaction_calls
    (pub.1, { rp.2 with
      publish_compaction_calls := rp.2.publish_compaction_calls + 1,
      recover_flag := pub.2 })

/-- `PrimaryKeyTxnLogApplier::check_and_recover`: run the publish step; if
recover is enabled and the builder flag is not OK, release the index entry
and run the external recover routine; on `RECOVER_WITH_PUBLISH` reset the
flag and re-run the step once, otherwise reset the flag and return OK. -/
def check_and_recover (env : PkEnv) (publish_func : PkState → Status × PkState)
    (s : PkState) : Status × PkState :=
  let r := publish_func s
  if env.enable_primary_key_recover ∧ r.2.recover_flag ≠ .OK then
    let s2 := { r.2 with
      index_pinned := false,
      recover_calls := r.2.recover_calls + 1 }
    match env.recoverStatus r.2.recover_calls with
    | .ok =>
      if r.2.recover_flag = .RECOVER_WITH_PUBLISH then
        publish_func { s2 with recover_flag := .OK }
      else
        (.ok, { s2 with recover_flag := .OK })
    | e => (e, s2)
  else r

/-- `PrimaryKeyTxnLogApplier::apply_schema_change_log`: append each op
rowset preserving its id (setting `next_rowset_id` to that rowset's
`id + max(1, segments_size)`, last one wins), copy the delvec meta if
present, and when `alter_version + 1 < new_version` set `base_version` to
the alter version and persist a checkpoint copy of the metadata at that
version. -/
def apply_schema_change_log (env : PkEnv) (op : OpSchemaChange) (s : PkState) :
    Status × PkState :=
  let m0 := op.rowsets.foldl schema_change_add s.metadata
  let m1 := match op.delvec_meta with
    | some d => { m0 with delvec_meta := some d }
    | none => m0
  if op.alter_version + 1 < s.new_version then
    let s1 := { s with metadata := m1, base_version := op.alter_version }
    match env.putStatus with
    | .ok => (.ok, { s1 with put_log := s1.put_log ++ [{ m1 with version := op.alter_version }] })
    | e => (e, s1)
  else (.ok, { s with metadata := m1 })

/-- The `RETURN_IF_ERROR` loop over the embedded writes of an incremental
replication snapshot.  Note the writes are applied through
`apply_write_log` directly, NOT through `check_and_recover`. -/
def apply_writes (env : PkEnv) (txn : Int) :
    List OpWrite → PkState → Status × PkState
  | [], s => (.ok, s)
  | w :: ws, s =>
    let r := apply_write_log env w txn s
    if r.1 = .ok then apply_writes env txn ws r.2 else r

/-- Id rebasing of a replicated rowset: `rowset->set_id(rowset->id() +
next_rowset_id)` with the pre-apply `next_rowset_id`. -/
def rebase_rowset (n0 : Nat) (w : OpWrite) : RowsetMetadata :=
  let r := w.rowsetD
  { r with id := r.id + n0 }

/-- The delvec loop of the full-snapshot replication path: load each blob
at the new version and append it to the builder under
`segment_id + next_rowset_id` (pre-rebase offset `off`).  On a load
failure, the delvecs appended so far are kept and the error returned. -/
def append_delvecs (env : PkEnv) (ver : Int) (off : Nat) :
    List (Nat × Nat) → List (Nat × Nat) → Status × List (Nat × Nat)
  | [], acc => (.ok, acc)
  | (sid, blob) :: rest, acc =>
    let r := env.delvecLoad ver blob
    if r.1 = .ok then append_delvecs env ver off rest (acc ++ [(sid + off, r.2)])
    else (r.1, acc)

/-- `PrimaryKeyTxnLogApplier::apply_replication_log`: framing checks, then
either the incremental path (each embedded write through `apply_write_log`)
or the full path (clear rowsets and delvec meta, re-append every replicated
rowset with its id rebased by the pre-apply `next_rowset_id`, append the
replicated delete vectors under the same offset, advance `next_rowset_id`
over all rebased ranges, reset the cumulative point, move the old rowsets
into `compaction_inputs` and unload the primary index). -/
def apply_replication_log (env : PkEnv) (op : OpReplication) (txn : Int)
    (s : PkState) : Status × PkState :=
  if op.txn_meta.txn_state ≠ .TXN_REPLICATED then
    (.corruption (msg_bad_state ++ ReplicationTxnStatePB_Name op.txn_meta.txn_state), s)
  else if op.txn_meta.snapshot_version ≠ s.new_version then
    (.corruption msg_mismatch, s)
  else
    let step :=
      if op.txn_meta.incremental_snapshot then
        apply_writes env txn op.op_writes s
      else
        let m := s.metadata
        let old := m.rowsets
        let n0 := m.next_rowset_id
        let newRowsets := op.op_writes.map (rebase_rowset n0)
        let newNext := newRowsets.foldl
          (fun acc r => max acc (r.id + max 1 r.segments_size)) n0
        let m1 := { m with rowsets := newRowsets, delvec_meta := none }
        let rd := append_delvecs env s.new_version n0 op.delvecs s.builder_delvecs
        if rd.1 ≠ .ok then (rd.1, { s with metadata := m1, builder_delvecs := rd.2 })
        else
          (.ok, { s with
            metadata := { m1 with
              next_rowset_id := newNext,
              cumulative_point := 0,
              compaction_inputs := old },
            builder_delvecs := rd.2,
            index_unloads := s.index_unloads + 1 })
    if step.1 = .ok then
      (.ok, match op.source_schema with
            | some sch =>
                { step.2 with metadata := { step.2.metadata with source_schema := some sch } }
            | none => step.2)
    else step

/-- `PrimaryKeyTxnLogApplier::apply`: update `max_txn_id`, then dispatch
over the present op fields in source order (write and compaction through
`check_and_recover`, then schema change, then alter metadata - which
returns immediately, skipping any replication op on the same log - then
replication), aborting at the first non-OK status. -/
def apply (env : PkEnv) (log : TxnLog) (s0 : PkState) : Status × PkState :=
  let s := { s0 with max_txn_id := max s0.max_txn_id log.txn_id }
  let r1 := match log.op_write with
    | some w => check_and_recover env (apply_write_log env w log.txn_id) s
    | none => (.ok, s)
  if r1.1 ≠ .ok then r1 else
  let r2 := match log.op_compaction with
    | some op => check_and_recover env (apply_compaction_log env op log.txn_id) r1.2
    | none => (.ok, r1.2)
  if r2.1 ≠ .ok then r2 else
  let r3 := match log.op_schema_change with
    | some op => apply_schema_change_log env op r2.2
    | none => (.ok, r2.2)
  if r3.1 ≠ .ok then r3 else
  match log.op_alter_metadata with
  | some op =>
    let r4 := apply_alter_meta_log r3.2.metadata op
    (r4.1, { r3.2 with metadata := r4.2 })
  | none =>
    let r5 := match log.op_replication with
      | some op => apply_replication_log env op log.txn_id r3.2
      | none => (.ok, r3.2)
    if r5.1 ≠ .ok then r5 else (.ok, r5.2)

/-- `PrimaryKeyTxnLogApplier::finish`: commit the index (if pinned), then
finalize the builder; only after both succeed is `has_finalized` set.  The
metadata version is not touched here. -/
def finish (env : PkEnv) (s : PkState) : Status × PkState :=
  let stC := if s.index_pinned then env.commitStatus else .ok
  if stC ≠ .ok then (stC, s)
  else match env.finalizeStatus with
    | .ok => (.ok, { s with has_finalized := true })
    | e => (e, s)

end Pk

/-! ## Invariants and helper predicates -/

/-- End of the id range consumed by a rowset: a rowset spanning `k`
segments consumes `[id, id + max(1, k))`. -/
def rEnd (r : RowsetMetadata) : Nat := r.id + max 1 r.segments_size

/-- Disjointness of the id ranges of two rowsets. -/
def rdisj (a b : RowsetMetadata) : Prop := rEnd a ≤ b.id ∨ rEnd b ≤ a.id

instance : DecidableRel rdisj := fun a b =>
  inferInstanceAs (Decidable (_ ∨ _))

/-- All rowsets tracked by a metadata: live rowsets plus compaction
inputs. -/
def allRowsets (m : TabletMetadata) : List RowsetMetadata :=
  m.rowsets ++ m.compaction_inputs

/-- Invariant I2: the id ranges of all tracked rowsets are pairwise
disjoint, and `next_rowset_id` lies at or beyond the end of every range
(hence strictly exceeds every used id). -/
def MetaInv (m : TabletMetadata) : Prop :=
  List.Pairwise rdisj (allRowsets m) ∧
    ∀ r ∈ allRowsets m, rEnd r ≤ m.next_rowset_id

instance (m : TabletMetadata) : Decidable (MetaInv m) :=
  inferInstanceAs (Decidable (_ ∧ _))

/-- Ids of the rowsets in a list are pairwise distinct. -/
def nodupIds : List RowsetMetadata → Bool
  | [] => true
  | r :: rs => rs.all (fun x => x.id ≠ r.id) && nodupIds rs

/-- `matchesAt rs tids qs`: the rowset of `rs` at position `qs[i]` exists
and carries id `tids[i]`, for every `i`. -/
def matchesAt (rs : List RowsetMetadata) : List Nat → List Nat → Bool
  | [], [] => true
  | tid :: tids, q :: qs =>
    (match rs.get? q with
     | some r => r.id == tid
     | none => false) && matchesAt rs tids qs
  | _, _ => false

/-- The positions are strictly increasing, starting above `p`. -/
def ascFrom (p : Nat) : List Nat → Bool
  | [] => true
  | q :: qs => decide (p < q) && ascFrom q qs

/-- The positions are exactly `p+1, p+2, ...`. -/
def consecFrom (p : Nat) : List Nat → Bool
  | [] => true
  | q :: qs => (q == p + 1) && consecFrom q qs

/-! ## Helper lemmas -/

/-- The rowset-appending fold of both schema-change handlers leaves
`next_rowset_id` at the last op rowset's `id + max(1, segments_size)`
(or untouched when the op carries no rowsets). -/
theorem schemaFold_next (rs : List RowsetMetadata) (m : TabletMetadata) :
    (rs.foldl schema_change_add m).next_rowset_id
      = (match rs.getLast? with
         | none => m.next_rowset_id
         | some r => r.id + max 1 r.segments_size) := by
  induction rs generalizing m with
  | nil => rfl
  | cons r rest ih =>
    cases rest with
    | nil => simp [schema_change_add, ih]
    | cons r2 rest2 =>
      rw [List.foldl_cons, ih, List.getLast?_cons_cons]
      cases e : (r2 :: rest2).getLast? with
      | none => simp at e
      | some x => rfl

/-- The same fold leaves the version field untouched. -/
theorem schemaFold_version (rs : List RowsetMetadata) (m : TabletMetadata) :
    (rs.foldl schema_change_add m).version = m.version := by
  induction rs generalizing m with
  | nil => rfl
  | cons r rest ih => rw [List.foldl_cons, ih]; rfl

/-- One alter-metadata update step leaves version, rowsets, compaction
inputs and `next_rowset_id` unchanged. -/
theorem alter_meta_update_fields (m : TabletMetadata) (info : MetadataUpdateInfo) :
    (alter_meta_update m info).version = m.version ∧
    (alter_meta_update m info).rowsets = m.rowsets ∧
    (alter_meta_update m info).compaction_inputs = m.compaction_inputs ∧
    (alter_meta_update m info).next_rowset_id = m.next_rowset_id := by
  obtain ⟨epi, sch⟩ := info
  cases epi <;> cases sch <;> exact ⟨rfl, rfl, rfl, rfl⟩

/-- `apply_alter_meta_log` only touches the persistent-index flag and the
schema. -/
theorem alter_meta_fields (m : TabletMetadata) (op : OpAlterMetadata) :
    (apply_alter_meta_log m op).1 = .ok ∧
    ((apply_alter_meta_log m op).2).version = m.version ∧
    ((apply_alter_meta_log m op).2).rowsets = m.rowsets ∧
    ((apply_alter_meta_log m op).2).compaction_inputs = m.compaction_inputs ∧
    ((apply_alter_meta_log m op).2).next_rowset_id = m.next_rowset_id := by
  unfold apply_alter_meta_log
  refine ⟨rfl, ?_⟩
  show (List.foldl alter_meta_update m op.metadata_update_infos).version = m.version ∧ _
  induction op.metadata_update_infos generalizing m with
  | nil => exact ⟨rfl, rfl, rfl, rfl⟩
  | cons info rest ih =>
    rw [List.foldl_cons]
    obtain ⟨ha, hb, hc, hd⟩ := ih (alter_meta_update m info)
    obtain ⟨sa, sb, sc, sd⟩ := alter_meta_update_fields m info
    exact ⟨ha.trans sa, hb.trans sb, hc.trans sc, hd.trans sd⟩

/-! ## Common concrete fixtures -/

/-- Oracle environment in which every external collaborator succeeds and
publish calls leave the recover flag at OK. -/
def envOk : PkEnv :=
  { enable_primary_key_recover := true,
    prepareStatus := .ok,
    publishWrite := fun _ => (.ok, .OK),
    publishCompaction := fun _ => (.ok, .OK),
    recoverStatus := fun _ => .ok,
    delvecLoad := fun _ b => (.ok, b),
    putStatus := .ok,
    commitStatus := .ok,
    finalizeStatus := .ok }

/-- Configuration with size-tiered compaction disabled and recover
enabled. -/
def cfg0 : ApplierConfig :=
  { enable_size_tiered_compaction_strategy := false,
    enable_primary_key_recover := true }

/-- A small base metadata at version 5 with no rowsets. -/
def meta0 : TabletMetadata :=
  { id := 1, version := 5, schema := 0, enable_persistent_index := false,
    rowsets := [], next_rowset_id := 100, cumulative_point := 0,
    delvec_meta := none, compaction_inputs := [], source_schema := none }

/-! ## C5: schema-change next_rowset_id update -/

/-- Schema-change op carrying two rowsets whose id ranges are NOT in
increasing order: `{id 10, 1 segment}` then `{id 2, 1 segment}`. -/
def c5op : OpSchemaChange :=
  { rowsets := [{ id := 10, segments_size := 1, num_rows := 20, has_delete_predicate := false },
                { id := 2, segments_size := 1, num_rows := 20, has_delete_predicate := false }],
    delvec_meta := none, linked_segment := false, alter_version := 1 }

/-- C5 counterexample: the claim says that after a schema-change op
`next_rowset_id` equals the maximum of the previous `next_rowset_id` (here
100) and `id + max(1, segments_size)` of each op rowset (here 11 and 3),
i.e. 100.  In both appliers the code instead SETS `next_rowset_id` per
rowset, so the last rowset wins and the result is 3 - the update does
decrease `next_rowset_id`. -/
theorem c5_counterexample :
    ((NonPk.apply_schema_change_log c5op (NonPk.construct meta0 6)).2).metadata.next_rowset_id = 3 ∧
    ((Pk.apply_schema_change_log envOk c5op (Pk.construct meta0 6)).2).metadata.next_rowset_id = 3 ∧
    max (max 100 (10 + max 1 1)) (2 + max 1 1) = 100 ∧
    (3 : Nat) ≠ 100 := by
  decide

/-- C5 amended: in both appliers, after `apply_schema_change_log` the
metadata's `next_rowset_id` equals `id + max(1, segments_size)` of the LAST
rowset carried by the op (and is unchanged when the op carries none);
the code sets rather than maxes, so the value is independent of the
previous `next_rowset_id` whenever the op carries rowsets. -/
theorem c5_amended :
    (∀ (op : OpSchemaChange) (s : NonPkState),
        ((NonPk.apply_schema_change_log op s).2).metadata.next_rowset_id
          = (match op.rowsets.getLast? with
             | none => s.metadata.next_rowset_id
             | some r => r.id + max 1 r.segments_size)) ∧
    (∀ (env : PkEnv) (op : OpSchemaChange) (s : PkState),
        ((Pk.apply_schema_change_log env op s).2).metadata.next_rowset_id
          = (match op.rowsets.getLast? with
             | none => s.metadata.next_rowset_id
             | some r => r.id + max 1 r.segments_size)) := by
  constructor
  · intro op s
    simpa [NonPk.apply_schema_change_log] using schemaFold_next op.rowsets s.metadata
  · intro env op s
    have hnext := schemaFold_next op.rowsets s.metadata
    unfold Pk.apply_schema_change_log
    cases hd : op.delvec_meta <;>
      simp only [hd] <;>
      split <;>
      first
        | (cases hp : env.putStatus <;> simp [hp, hnext])
        | simp [hnext]

/-! ## C9: version field across operations -/

theorem nonpk_write_version (w : OpWrite) (s : NonPkState) :
    ((NonPk.apply_write_log w s).2).metadata.version = s.metadata.version := by
  unfold NonPk.apply_write_log
  cases hr : w.rowset with
  | none => rfl
  | some r =>
    dsimp only
    split <;> rfl

theorem nonpk_compaction_version (cfg : ApplierConfig) (op : OpCompaction)
    (s : NonPkState) :
    ((NonPk.apply_compaction_log cfg op s).2).metadata.version = s.metadata.version := by
  unfold NonPk.apply_compaction_log
  cases hin : op.input_rowsets with
  | nil => rfl
  | cons id0 rest =>
    dsimp only
    cases hf : List.findIdx? (fun r => r.id == id0) s.metadata.rowsets with
    | none => rfl
    | some fidx =>
      dsimp only
      cases hw : NonPk.walk s.metadata.rowsets rest fidx with
      | error e => rfl
      | ok last_pos =>
        dsimp only
        repeat (first | rfl | split)

theorem nonpk_schema_version (op : OpSchemaChange) (s : NonPkState) :
    ((NonPk.apply_schema_change_log op s).2).metadata.version = s.metadata.version := by
  simpa [NonPk.apply_schema_change_log] using schemaFold_version op.rowsets s.metadata

theorem nonpk_writes_version (ws : List OpWrite) (s : NonPkState) :
    ((NonPk.apply_writes ws s).2).metadata.version = s.metadata.version := by
  induction ws generalizing s with
  | nil => rfl
  | cons w rest ih =>
    rcases hws : NonPk.apply_write_log w s with ⟨st, s1⟩
    have h := nonpk_write_version w s
    rw [hws] at h
    unfold NonPk.apply_writes
    rw [hws]
    dsimp only
    split
    · rw [ih s1]
      exact h
    · exact h

theorem nonpk_replication_version (op : OpReplication) (s : NonPkState) :
    ((NonPk.apply_replication_log op s).2).metadata.version = s.metadata.version := by
  by_cases h1 : op.txn_meta.txn_state = .TXN_REPLICATED
  case neg => simp [NonPk.apply_replication_log, h1]
  by_cases h2 : op.txn_meta.snapshot_version = s.new_version
  case neg => simp [NonPk.apply_replication_log, h1, h2]
  by_cases hinc : op.txn_meta.incremental_snapshot = true
  · rcases hws : NonPk.apply_writes op.op_writes s with ⟨st, s3⟩
    have hv := nonpk_writes_version op.op_writes s
    rw [hws] at hv
    simp only [] at hv
    cases st <;>
      cases hss : op.source_schema <;>
        simp [NonPk.apply_replication_log, h1, h2, hinc, hws, hss, hv]
  · rcases hws : NonPk.apply_writes op.op_writes
        { s with metadata := { s.metadata with rowsets := [] } } with ⟨st, s3⟩
    have hv := nonpk_writes_version op.op_writes
        { s with metadata := { s.metadata with rowsets := [] } }
    rw [hws] at hv
    simp only [] at hv
    cases st <;>
      cases hss : op.source_schema <;>
        simp [NonPk.apply_replication_log, h1, h2, hinc, hws, hss, hv]

theorem pk_write_state (env : PkEnv) (w : OpWrite) (txn : Int) (s : PkState) :
    ((Pk.apply_write_log env w txn s).2).metadata = s.metadata ∧
    ((Pk.apply_write_log env w txn s).2).recover_calls = s.recover_calls ∧
    ((Pk.apply_write_log env w txn s).2).index_unloads = s.index_unloads ∧
    ((Pk.apply_write_log env w txn s).2).builder_delvecs = s.builder_delvecs ∧
    ((Pk.apply_write_log env w txn s).2).base_version = s.base_version ∧
    ((Pk.apply_write_log env w txn s).2).max_txn_id = s.max_txn_id ∧
    ((Pk.apply_write_log env w txn s).2).put_log = s.put_log ∧
    ((Pk.apply_write_log env w txn s).2).has_finalized = s.has_finalized ∧
    ((Pk.apply_write_log env w txn s).2).new_version = s.new_version := by
  unfold Pk.apply_write_log
  cases hp : s.index_pinned <;> cases he : env.prepareStatus <;>
    dsimp only <;>
    repeat (first | exact ⟨rfl, rfl, rfl, rfl, rfl, rfl, rfl, rfl, rfl⟩ | split | dsimp only)

theorem pk_compaction_state (env : PkEnv) (op : OpCompaction) (txn : Int) (s : PkState) :
    ((Pk.apply_compaction_log env op txn s).2).metadata = s.metadata ∧
    ((Pk.apply_compaction_log env op txn s).2).recover_calls = s.recover_calls := by
  unfold Pk.apply_compaction_log
  cases hp : s.index_pinned <;> cases he : env.prepareStatus <;>
    dsimp only <;>
    repeat (first | exact ⟨rfl, rfl⟩ | split | dsimp only)

theorem pk_write_version (env : PkEnv) (w : OpWrite) (txn : Int) (s : PkState) :
    ((Pk.apply_write_log env w txn s).2).metadata.version = s.metadata.version := by
  rw [(pk_write_state env w txn s).1]

/-- `check_and_recover` preserves the metadata version whenever the wrapped
step does (recover itself rebuilds only the index and delete vectors). -/
theorem pk_car_version (env : PkEnv) (f : PkState → Status × PkState)
    (hf : ∀ s, ((f s).2).metadata.version = s.metadata.version) (s : PkState) :
    ((Pk.check_and_recover env f s).2).metadata.version = s.metadata.version := by
  unfold Pk.check_and_recover
  dsimp only
  split
  · split
    · split
      · exact (hf _).trans (hf s)
      · exact hf s
    · exact hf s
  · exact hf s

theorem pk_car_write_version (env : PkEnv) (w : OpWrite) (txn : Int) (s : PkState) :
    ((Pk.check_and_recover env (Pk.apply_write_log env w txn) s).2).metadata.version
      = s.metadata.version :=
  pk_car_version env _ (fun s' => pk_write_version env w txn s') s

theorem pk_car_compaction_version (env : PkEnv) (op : OpCompaction) (txn : Int) (s : PkState) :
    ((Pk.check_and_recover env (Pk.apply_compaction_log env op txn) s).2).metadata.version
      = s.metadata.version :=
  pk_car_version env _ (fun s' => by rw [(pk_compaction_state env op txn s').1]) s

theorem pk_schema_version (env : PkEnv) (op : OpSchemaChange) (s : PkState) :
    ((Pk.apply_schema_change_log env op s).2).metadata.version = s.metadata.version := by
  have h := schemaFold_version op.rowsets s.metadata
  unfold Pk.apply_schema_change_log
  cases hd : op.delvec_meta <;>
    dsimp only <;>
    split <;>
    (try split) <;>
    simp [h]

theorem alter_meta_version (m : TabletMetadata) (op : OpAlterMetadata) :
    ((apply_alter_meta_log m op).2).version = m.version :=
  (alter_meta_fields m op).2.1

theorem pk_writes_version (env : PkEnv) (txn : Int) (ws : List OpWrite) (s : PkState) :
    ((Pk.apply_writes env txn ws s).2).metadata.version = s.metadata.version := by
  induction ws generalizing s with
  | nil => rfl
  | cons w rest ih =>
    unfold Pk.apply_writes
    dsimp only
    split
    · exact (ih _).trans (pk_write_version env w txn s)
    · exact pk_write_version env w txn s

theorem pk_replication_version (env : PkEnv) (op : OpReplication) (txn : Int) (s : PkState) :
    ((Pk.apply_replication_log env op txn s).2).metadata.version = s.metadata.version := by
  by_cases h1 : op.txn_meta.txn_state = .TXN_REPLICATED
  case neg => simp [Pk.apply_replication_log, h1]
  by_cases h2 : op.txn_meta.snapshot_version = s.new_version
  case neg => simp [Pk.apply_replication_log, h1, h2]
  by_cases hinc : op.txn_meta.incremental_snapshot = true
  · have hv := pk_writes_version env txn op.op_writes s
    rcases hws : Pk.apply_writes env txn op.op_writes s with ⟨st, s3⟩
    rw [hws] at hv
    simp only [] at hv
    cases st <;> cases hss : op.source_schema <;>
      simp [Pk.apply_replication_log, h1, h2, hinc, hws, hss, hv]
  · by_cases hd : (Pk.append_delvecs env s.new_version s.metadata.next_rowset_id
        op.delvecs s.builder_delvecs).1 = .ok <;>
      cases hss : op.source_schema <;>
        simp [Pk.apply_replication_log, h1, h2, hinc, hss, hd]

theorem pk_apply_version (env : PkEnv) (log : TxnLog) (s0 : PkState) :
    ((Pk.apply env log s0).2).metadata.version = s0.metadata.version := by
  obtain ⟨txn, ow, oc, osc, oam, orp⟩ := log
  cases ow <;> cases oc <;> cases osc <;> cases oam <;> cases orp <;>
    (unfold Pk.apply
     dsimp only
     repeat' split
     all_goals try rfl
     all_goals simp [pk_car_write_version, pk_car_compaction_version, pk_schema_version,
                     pk_replication_version, alter_meta_version])

theorem pk_finish_metadata (env : PkEnv) (s : PkState) :
    ((Pk.finish env s).2).metadata = s.metadata := by
  unfold Pk.finish
  dsimp only
  repeat (first | rfl | split)

theorem nonpk_apply_version (log : TxnLog) (cfg : ApplierConfig) (s : NonPkState) :
    ((NonPk.apply cfg log s).2).metadata.version = s.metadata.version := by
  obtain ⟨txn, ow, oc, osc, oam, orp⟩ := log
  cases ow <;> cases oc <;> cases osc <;> cases oam <;> cases orp <;>
    (unfold NonPk.apply
     dsimp only
     repeat' split
     all_goals try rfl
     all_goals simp [nonpk_write_version, nonpk_compaction_version, nonpk_schema_version,
                     nonpk_replication_version, alter_meta_version])

/-- C9 counterexample: for the non-primary-key applier the claim fails.
With base metadata at version 5 and `new_version = 7`, construction stores
the metadata unchanged (version still 5, not 7), and `finish` is exactly
the operation that changes the version to 7 - so the in-memory version
neither equals `new_version` from construction onward nor stays unchanged
through `finish`. -/
theorem c9_counterexample :
    (NonPk.construct meta0 7).metadata.version = 5 ∧
    (5 : Int) ≠ 7 ∧
    ((NonPk.finish .ok (NonPk.construct meta0 7)).2).metadata.version = 7 := by
  decide

/-- C9 amended: for the primary-key applier the claim holds as stated
(construction sets `version := new_version`; no apply of any op kind, no
checkpoint write - which mutates only a copy - and no `finish` changes
it).  For the non-primary-key applier the version instead remains the base
version through construction and every apply, and `finish` is the point
that sets it to `new_version`. -/
theorem c9_amended :
    (∀ (m : TabletMetadata) (v : Int), (Pk.construct m v).metadata.version = v) ∧
    (∀ (env : PkEnv) (log : TxnLog) (s : PkState),
        ((Pk.apply env log s).2).metadata.version = s.metadata.version) ∧
    (∀ (env : PkEnv) (s : PkState),
        ((Pk.finish env s).2).metadata.version = s.metadata.version) ∧
    (∀ (m : TabletMetadata) (v : Int), (NonPk.construct m v).metadata.version = m.version) ∧
    (∀ (cfg : ApplierConfig) (log : TxnLog) (s : NonPkState),
        ((NonPk.apply cfg log s).2).metadata.version = s.metadata.version) ∧
    (∀ (st : Status) (s : NonPkState),
        ((NonPk.finish st s).2).metadata.version = s.new_version) := by
  refine ⟨fun m v => rfl, pk_apply_version, ?_, fun m v => rfl, ?_, fun st s => rfl⟩
  · intro env s
    rw [pk_finish_metadata]
  · intro cfg log s
    exact nonpk_apply_version log cfg s

/-! ## C6: recover-and-retry wrapper -/

/-- C6: with recover enabled and the recover routine succeeding, the
wrapper's behaviour is: if the step left the builder flag at
RECOVER_WITH_PUBLISH, the result is exactly ONE further invocation of the
step on the recovered state (index released, recover run once -
`recover_calls` incremented by exactly 1 - flag reset to OK); whatever
that retried invocation returns - including a status carrying a second
recover request in the flag - is the wrapper's result, with no further
recovery.  If the flag was RECOVER, the wrapper returns OK on the
recovered state without re-invoking the step. -/
theorem c6_theorem (env : PkEnv) (f : PkState → Status × PkState) (s : PkState)
    (hen : env.enable_primary_key_recover = true)
    (hrec : env.recoverStatus ((f s).2).recover_calls = .ok) :
    (((f s).2).recover_flag = .RECOVER_WITH_PUBLISH →
        Pk.check_and_recover env f s
          = f { (f s).2 with
                index_pinned := false,
                recover_calls := ((f s).2).recover_calls + 1,
                recover_flag := .OK }) ∧
    (((f s).2).recover_flag = .RECOVER →
        Pk.check_and_recover env f s
          = (.ok, { (f s).2 with
                index_pinned := false,
                recover_calls := ((f s).2).recover_calls + 1,
                recover_flag := .OK })) := by
  unfold Pk.check_and_recover
  constructor
  · intro hflag
    simp [hen, hflag, hrec]
  · intro hflag
    simp [hen, hflag, hrec]

/-- Step function used by the C6 witness: a publish step that fails with
an abstract error and requests RECOVER_WITH_PUBLISH. -/
def c6f : PkState → Status × PkState :=
  fun st => (.otherError 3, { st with recover_flag := .RECOVER_WITH_PUBLISH })

theorem c6_theorem_witness :
    envOk.enable_primary_key_recover = true ∧
    envOk.recoverStatus ((c6f (Pk.construct meta0 6)).2).recover_calls = .ok ∧
    (((c6f (Pk.construct meta0 6)).2).recover_flag = .RECOVER_WITH_PUBLISH →
        Pk.check_and_recover envOk c6f (Pk.construct meta0 6)
          = c6f { (c6f (Pk.construct meta0 6)).2 with
                  index_pinned := false,
                  recover_calls := ((c6f (Pk.construct meta0 6)).2).recover_calls + 1,
                  recover_flag := .OK }) :=
  ⟨rfl, rfl, (c6_theorem envOk c6f (Pk.construct meta0 6) rfl rfl).1⟩

/-! ## C7: replication and the recover wrapper -/

theorem pk_writes_recover_calls (env : PkEnv) (txn : Int) (ws : List OpWrite) (s : PkState) :
    ((Pk.apply_writes env txn ws s).2).recover_calls = s.recover_calls := by
  induction ws generalizing s with
  | nil => rfl
  | cons w rest ih =>
    unfold Pk.apply_writes
    dsimp only
    split
    · exact (ih _).trans (pk_write_state env w txn s).2.1
    · exact (pk_write_state env w txn s).2.1

/-- Environment whose first write-publish call fails requesting
RECOVER_WITH_PUBLISH, succeeding afterwards. -/
def c7env : PkEnv :=
  { envOk with
    publishWrite := fun n =>
      if n = 0 then (.otherError 7, .RECOVER_WITH_PUBLISH) else (.ok, .OK) }

/-- A non-empty write op. -/
def c7w : OpWrite :=
  { rowset := some { id := 0, segments_size := 1, num_rows := 10, has_delete_predicate := false },
    dels_size := 0 }

/-- A standalone write log carrying `c7w`. -/
def c7log1 : TxnLog :=
  { txn_id := 1, op_write := some c7w, op_compaction := none,
    op_schema_change := none, op_alter_metadata := none, op_replication := none }

/-- An incremental-snapshot replication op embedding the same write. -/
def c7rep : OpReplication :=
  { txn_meta := { txn_state := .TXN_REPLICATED, snapshot_version := 6,
                  incremental_snapshot := true, txn_id := 1 },
    op_writes := [c7w], delvecs := [], source_schema := none }

/-- The replication log embedding `c7w`. -/
def c7log2 : TxnLog :=
  { txn_id := 1, op_write := none, op_compaction := none,
    op_schema_change := none, op_alter_metadata := none, op_replication := some c7rep }

/-- C7 counterexample: the same write that, as a standalone write log,
triggers one recover and a successful re-publish (final status OK,
`recover_calls = 1`, two publish calls) does NOT trigger recover when
embedded in an incremental replication log: the error propagates, recover
is never invoked (`recover_calls = 0`) and the recover flag is left set on
the builder - replication bypasses the recover-and-retry wrapper. -/
theorem c7_counterexample :
    (Pk.apply c7env c7log1 (Pk.construct meta0 6)).1 = .ok ∧
    ((Pk.apply c7env c7log1 (Pk.construct meta0 6)).2).recover_calls = 1 ∧
    ((Pk.apply c7env c7log1 (Pk.construct meta0 6)).2).publish_write_calls = 2 ∧
    (Pk.apply c7env c7log2 (Pk.construct meta0 6)).1 = .otherError 7 ∧
    ((Pk.apply c7env c7log2 (Pk.construct meta0 6)).2).recover_calls = 0 ∧
    ((Pk.apply c7env c7log2 (Pk.construct meta0 6)).2).recover_flag = .RECOVER_WITH_PUBLISH := by
  decide

/-- C7 amended: in the primary-key applier, the embedded writes of an
incremental replication log are applied through `apply_write_log`
DIRECTLY, not through the recover wrapper: the replication handler equals
the plain short-circuit fold of `apply_write_log` (followed by the
source-schema copy on success), and it never invokes the recover routine
(`recover_calls` is preserved), so a recover flag raised by an embedded
write propagates as a raw error with the flag left set on the builder. -/
theorem c7_amended (env : PkEnv) (op : OpReplication) (txn : Int) (s : PkState)
    (h1 : op.txn_meta.txn_state = .TXN_REPLICATED)
    (h2 : op.txn_meta.snapshot_version = s.new_version)
    (hinc : op.txn_meta.incremental_snapshot = true) :
    Pk.apply_replication_log env op txn s
      = (if (Pk.apply_writes env txn op.op_writes s).1 = .ok then
           (.ok, match op.source_schema with
                 | some sch =>
                     { (Pk.apply_writes env txn op.op_writes s).2 with
                       metadata := { (Pk.apply_writes env txn op.op_writes s).2.metadata with
                                     source_schema := some sch } }
                 | none => (Pk.apply_writes env txn op.op_writes s).2)
         else Pk.apply_writes env txn op.op_writes s) ∧
    ((Pk.apply_replication_log env op txn s).2).recover_calls = s.recover_calls := by
  have he : Pk.apply_replication_log env op txn s
      = (if (Pk.apply_writes env txn op.op_writes s).1 = .ok then
           (.ok, match op.source_schema with
                 | some sch =>
                     { (Pk.apply_writes env txn op.op_writes s).2 with
                       metadata := { (Pk.apply_writes env txn op.op_writes s).2.metadata with
                                     source_schema := some sch } }
                 | none => (Pk.apply_writes env txn op.op_writes s).2)
         else Pk.apply_writes env txn op.op_writes s) := by
    unfold Pk.apply_replication_log
    simp [h1, h2, hinc]
  refine ⟨he, ?_⟩
  rw [he]
  split
  · cases hss : op.source_schema <;>
      simp [pk_writes_recover_calls]
  · exact pk_writes_recover_calls env txn op.op_writes s

theorem c7_amended_witness :
    c7rep.txn_meta.txn_state = .TXN_REPLICATED ∧
    c7rep.txn_meta.snapshot_version = (Pk.construct meta0 6).new_version ∧
    c7rep.txn_meta.incremental_snapshot = true ∧
    ((Pk.apply_replication_log c7env c7rep 1 (Pk.construct meta0 6)).2).recover_calls
      = (Pk.construct meta0 6).recover_calls :=
  ⟨rfl, rfl, rfl, (c7_amended c7env c7rep 1 (Pk.construct meta0 6) rfl rfl rfl).2⟩

/-! ## C1: op dispatch order within one apply -/

/-- A valid incremental replication op with no writes carrying a source
schema, so that applying it is observable (it sets `source_schema`). -/
def c1repOk : OpReplication :=
  { txn_meta := { txn_state := .TXN_REPLICATED, snapshot_version := 6,
                  incremental_snapshot := true, txn_id := 1 },
    op_writes := [], delvecs := [], source_schema := some 42 }

/-- An alter-metadata op setting the schema to 9. -/
def c1alter : OpAlterMetadata :=
  { metadata_update_infos := [{ enable_persistent_index := none, tablet_schema := some 9 }] }

/-- PK log carrying both alter-metadata and (valid) replication. -/
def c1logPk : TxnLog :=
  { txn_id := 1, op_write := none, op_compaction := none,
    op_schema_change := none, op_alter_metadata := some c1alter,
    op_replication := some c1repOk }

/-- Same log without the alter op. -/
def c1logPkNoAlter : TxnLog :=
  { txn_id := 1, op_write := none, op_compaction := none,
    op_schema_change := none, op_alter_metadata := none,
    op_replication := some c1repOk }

/-- A replication op with invalid framing (state TXN_PREPARED). -/
def c1repBad : OpReplication :=
  { txn_meta := { txn_state := .TXN_PREPARED, snapshot_version := 6,
                  incremental_snapshot := true, txn_id := 1 },
    op_writes := [], delvecs := [], source_schema := none }

/-- NonPK log carrying both alter-metadata and an invalid replication. -/
def c1logNp : TxnLog :=
  { txn_id := 1, op_write := none, op_compaction := none,
    op_schema_change := none, op_alter_metadata := some c1alter,
    op_replication := some c1repBad }

/-- C1 counterexample.  PK: on a log carrying both alter-metadata and a
valid replication op, `apply` returns OK having applied the alter (schema
= 9) but NOT the replication (`source_schema` stays `none`, while the same
log without the alter op sets it to 42) - so not every op field present is
applied even though no earlier step failed.  NonPK: on a log carrying
alter-metadata and an invalid replication, the replication error arrives
FIRST and the alter is never applied (schema stays 0) - under the claimed
order (alter before replication) the alter, which always succeeds, would
have been applied. -/
theorem c1_counterexample :
    (Pk.apply envOk c1logPk (Pk.construct meta0 6)).1 = .ok ∧
    ((Pk.apply envOk c1logPk (Pk.construct meta0 6)).2).metadata.schema = 9 ∧
    ((Pk.apply envOk c1logPk (Pk.construct meta0 6)).2).metadata.source_schema = none ∧
    ((Pk.apply envOk c1logPkNoAlter (Pk.construct meta0 6)).2).metadata.source_schema = some 42 ∧
    (NonPk.apply cfg0 c1logNp (NonPk.construct meta0 6)).1
      = .corruption (msg_bad_state ++ "TXN_PREPARED") ∧
    ((NonPk.apply cfg0 c1logNp (NonPk.construct meta0 6)).2).metadata.schema = 0 := by
  decide

/-- C1 amended: the actual dispatch orders.  (1) PK: when an
alter-metadata op is present, `apply` returns right after applying it, so
any replication op on the same log is ignored entirely.  (2) NonPK applies
present ops in the order write, compaction, schema-change, REPLICATION,
then metadata-alter (not alter before replication), stopping at the first
failure.  (3) PK applies present ops in the order write (recover-wrapped),
compaction (recover-wrapped), schema-change, metadata-alter, stopping at
the first failure and returning at the alter step; the replication op
never runs on such a log. -/
theorem c1_amended :
    (∀ (env : PkEnv) (log : TxnLog) (s : PkState),
        log.op_alter_metadata.isSome →
        Pk.apply env log s = Pk.apply env { log with op_replication := none } s) ∧
    (∀ (cfg : ApplierConfig) (log : TxnLog) (s : NonPkState)
        (w : OpWrite) (c : OpCompaction) (sc : OpSchemaChange)
        (rp : OpReplication) (am : OpAlterMetadata),
        log.op_write = some w → log.op_compaction = some c →
        log.op_schema_change = some sc → log.op_replication = some rp →
        log.op_alter_metadata = some am →
        NonPk.apply cfg log s
          = (let r1 := NonPk.apply_write_log w s
             if r1.1 ≠ .ok then r1 else
             let r2 := NonPk.apply_compaction_log cfg c r1.2
             if r2.1 ≠ .ok then r2 else
             let r3 := NonPk.apply_schema_change_log sc r2.2
             if r3.1 ≠ .ok then r3 else
             let r4 := NonPk.apply_replication_log rp r3.2
             if r4.1 ≠ .ok then r4 else
             let r5 := apply_alter_meta_log r4.2.metadata am
             (r5.1, { r4.2 with metadata := r5.2 }))) ∧
    (∀ (env : PkEnv) (log : TxnLog) (s0 : PkState)
        (w : OpWrite) (c : OpCompaction) (sc : OpSchemaChange)
        (rp : OpReplication) (am : OpAlterMetadata),
        log.op_write = some w → log.op_compaction = some c →
        log.op_schema_change = some sc → log.op_replication = some rp →
        log.op_alter_metadata = some am →
        Pk.apply env log s0
          = (let s := { s0 with max_txn_id := max s0.max_txn_id log.txn_id }
             let r1 := Pk.check_and_recover env (Pk.apply_write_log env w log.txn_id) s
             if r1.1 ≠ .ok then r1 else
             let r2 := Pk.check_and_recover env (Pk.apply_compaction_log env c log.txn_id) r1.2
             if r2.1 ≠ .ok then r2 else
             let r3 := Pk.apply_schema_change_log env sc r2.2
             if r3.1 ≠ .ok then r3 else
             let r4 := apply_alter_meta_log r3.2.metadata am
             (r4.1, { r3.2 with metadata := r4.2 }))) := by
  refine ⟨?_, ?_, ?_⟩
  · intro env log s h
    obtain ⟨am, ham⟩ := Option.isSome_iff_exists.mp h
    unfold Pk.apply
    simp [ham]
  · intro cfg log s w c sc rp am hw hc hsc hrp ham
    unfold NonPk.apply
    rw [hw, hc, hsc, hrp, ham]
  · intro env log s0 w c sc rp am hw hc hsc hrp ham
    unfold Pk.apply
    rw [hw, hc, hsc, ham]

/-- Empty write op (fast-skip). -/
def c1w0 : OpWrite := { rowset := none, dels_size := 0 }

/-- Empty compaction op (fast-skip). -/
def c1c0 : OpCompaction := { input_rowsets := [], output_rowset := none }

/-- Schema-change op with no rowsets. -/
def c1sc0 : OpSchemaChange :=
  { rowsets := [], delvec_meta := none, linked_segment := false, alter_version := 5 }

/-- Log carrying all five op kinds. -/
def c1logFull : TxnLog :=
  { txn_id := 1, op_write := some c1w0, op_compaction := some c1c0,
    op_schema_change := some c1sc0, op_alter_metadata := some c1alter,
    op_replication := some c1repOk }

theorem c1_amended_witness :
    c1logPk.op_alter_metadata.isSome ∧
    Pk.apply envOk c1logPk (Pk.construct meta0 6)
      = Pk.apply envOk { c1logPk with op_replication := none } (Pk.construct meta0 6) ∧
    c1logFull.op_write = some c1w0 ∧
    c1logFull.op_compaction = some c1c0 ∧
    c1logFull.op_schema_change = some c1sc0 ∧
    c1logFull.op_replication = some c1repOk ∧
    c1logFull.op_alter_metadata = some c1alter ∧
    NonPk.apply cfg0 c1logFull (NonPk.construct meta0 6)
      = (let r1 := NonPk.apply_write_log c1w0 (NonPk.construct meta0 6)
         if r1.1 ≠ .ok then r1 else
         let r2 := NonPk.apply_compaction_log cfg0 c1c0 r1.2
         if r2.1 ≠ .ok then r2 else
         let r3 := NonPk.apply_schema_change_log c1sc0 r2.2
         if r3.1 ≠ .ok then r3 else
         let r4 := NonPk.apply_replication_log c1repOk r3.2
         if r4.1 ≠ .ok then r4 else
         let r5 := apply_alter_meta_log r4.2.metadata c1alter
         (r5.1, { r4.2 with metadata := r5.2 })) ∧
    Pk.apply envOk c1logFull (Pk.construct meta0 6)
      = (let s := { Pk.construct meta0 6 with
                    max_txn_id := max (Pk.construct meta0 6).max_txn_id c1logFull.txn_id }
         let r1 := Pk.check_and_recover envOk (Pk.apply_write_log envOk c1w0 c1logFull.txn_id) s
         if r1.1 ≠ .ok then r1 else
         let r2 := Pk.check_and_recover envOk (Pk.apply_compaction_log envOk c1c0 c1logFull.txn_id) r1.2
         if r2.1 ≠ .ok then r2 else
         let r3 := Pk.apply_schema_change_log envOk c1sc0 r2.2
         if r3.1 ≠ .ok then r3 else
         let r4 := apply_alter_meta_log r3.2.metadata c1alter
         (r4.1, { r3.2 with metadata := r4.2 })) :=
  ⟨rfl,
   c1_amended.1 envOk c1logPk (Pk.construct meta0 6) rfl,
   rfl, rfl, rfl, rfl, rfl,
   c1_amended.2.1 cfg0 c1logFull (NonPk.construct meta0 6) c1w0 c1c0 c1sc0 c1repOk c1alter
     rfl rfl rfl rfl rfl,
   c1_amended.2.2 envOk c1logFull (Pk.construct meta0 6) c1w0 c1c0 c1sc0 c1repOk c1alter
     rfl rfl rfl rfl rfl⟩

/-! ## C4: cumulative point after a successful non-PK compaction -/

/-- C4: for every successful non-primary-key compaction with non-empty
inputs and size-tiered compaction disabled, the new cumulative point is:
`first_idx` when `first_idx ≥` the old cumulative point; else the old
cumulative point minus the number of inputs when the old value is at least
that number; else 0; plus 1 when the op carries an output rowset with
rows.  The result never exceeds the post-splice rowset count (the handler
returns an InternalError instead of storing a larger value). -/
theorem c4_theorem (cfg : ApplierConfig) (op : OpCompaction) (s : NonPkState)
    (m' : NonPkState) (id0 : Nat) (rest : List Nat)
    (hin : op.input_rowsets = id0 :: rest)
    (hst : cfg.enable_size_tiered_compaction_strategy = false)
    (fidx : Nat)
    (hfind : List.findIdx? (fun r => r.id == id0) s.metadata.rowsets = some fidx)
    (happly : NonPk.apply_compaction_log cfg op s = (.ok, m')) :
    m'.metadata.cumulative_point
      = (if fidx ≥ s.metadata.cumulative_point then fidx
         else if s.metadata.cumulative_point ≥ op.input_rowsets.length then
           s.metadata.cumulative_point - op.input_rowsets.length
         else 0)
        + (if op.outputWithRows then 1 else 0) ∧
    m'.metadata.cumulative_point ≤ m'.metadata.rowsets.length := by
  unfold NonPk.apply_compaction_log at happly
  rw [hin] at happly
  dsimp only at happly
  rw [hfind] at happly
  dsimp only at happly
  cases hw : NonPk.walk s.metadata.rowsets rest fidx with
  | error e =>
    rw [hw] at happly
    simp at happly
  | ok last_pos =>
    rw [hw] at happly
    rw [hst] at happly
    simp only [Bool.false_eq_true, if_false] at happly
    rw [hin]
    cases ho : op.outputWithRows <;>
      simp only [ho, Bool.true_eq_false, Bool.false_eq_true, if_true, if_false] at happly ⊢ <;>
      generalize hg : (if fidx ≥ s.metadata.cumulative_point then fidx
           else if s.metadata.cumulative_point ≥ (id0 :: rest).length then
             s.metadata.cumulative_point - (id0 :: rest).length
           else 0) = ncp0 at happly ⊢ <;>
      split at happly <;>
      first
        | (exfalso; simp at happly; done)
        | (rw [Prod.mk.injEq] at happly
           obtain ⟨-, hm⟩ := happly
           subst hm
           exact ⟨rfl, by dsimp only; omega⟩)

/-- Metadata with four rowsets `[id 1, id 3, id 4, id 5]` and cumulative
point 1 (the P4 fixture of the specification). -/
def c4meta : TabletMetadata :=
  { id := 7, version := 5, schema := 0, enable_persistent_index := false,
    rowsets := [{ id := 1, segments_size := 2, num_rows := 10, has_delete_predicate := false },
                { id := 3, segments_size := 1, num_rows := 10, has_delete_predicate := false },
                { id := 4, segments_size := 1, num_rows := 10, has_delete_predicate := false },
                { id := 5, segments_size := 1, num_rows := 10, has_delete_predicate := false }],
    next_rowset_id := 6, cumulative_point := 1, delvec_meta := none,
    compaction_inputs := [], source_schema := none }

/-- Non-PK applier state over `c4meta`. -/
def c4s : NonPkState := { metadata := c4meta, new_version := 6 }

/-- Compaction of the middle rowsets `[3, 4]` into a 2-segment output. -/
def c4op : OpCompaction :=
  { input_rowsets := [3, 4],
    output_rowset := some { id := 99, segments_size := 2, num_rows := 50,
                            has_delete_predicate := false } }

theorem c4_theorem_witness :
    c4op.input_rowsets = 3 :: [4] ∧
    cfg0.enable_size_tiered_compaction_strategy = false ∧
    List.findIdx? (fun r => r.id == 3) c4s.metadata.rowsets = some 1 ∧
    NonPk.apply_compaction_log cfg0 c4op c4s
      = (.ok, (NonPk.apply_compaction_log cfg0 c4op c4s).2) ∧
    ((NonPk.apply_compaction_log cfg0 c4op c4s).2.metadata.cumulative_point
        = (if 1 ≥ c4s.metadata.cumulative_point then 1
           else if c4s.metadata.cumulative_point ≥ c4op.input_rowsets.length then
             c4s.metadata.cumulative_point - c4op.input_rowsets.length
           else 0)
          + (if c4op.outputWithRows then 1 else 0) ∧
     (NonPk.apply_compaction_log cfg0 c4op c4s).2.metadata.cumulative_point
        ≤ (NonPk.apply_compaction_log cfg0 c4op c4s).2.metadata.rowsets.length) :=
  ⟨by decide, rfl, by decide, by decide,
   c4_theorem cfg0 c4op c4s _ 3 [4] (by decide) rfl 1 (by decide) (by decide)⟩

/-! ## C10: the cumulative-point overflow error is not atomic -/

/-- C10: when the adjacency checks have passed (first input found, walk
succeeded) but the handler still fails - i.e. the cumulative-point
overflow InternalError - the returned metadata has ALREADY been mutated:
the input block has been appended to `compaction_inputs`, the rowsets have
been spliced (with the output rowset, if any, inserted under a fresh id),
and `next_rowset_id` has been advanced; only `cumulative_point` is left
unchanged.  Unlike the adjacency failure, this error path is not atomic. -/
theorem c10_theorem (cfg : ApplierConfig) (op : OpCompaction) (s : NonPkState)
    (id0 : Nat) (rest : List Nat) (fidx last_pos : Nat)
    (hin : op.input_rowsets = id0 :: rest)
    (hst : cfg.enable_size_tiered_compaction_strategy = false)
    (hfind : List.findIdx? (fun r => r.id == id0) s.metadata.rowsets = some fidx)
    (hwalk : NonPk.walk s.metadata.rowsets rest fidx = .ok last_pos)
    (hfail : (NonPk.apply_compaction_log cfg op s).1 ≠ .ok) :
    ((NonPk.apply_compaction_log cfg op s).2).metadata.compaction_inputs
      = s.metadata.compaction_inputs ++
          (s.metadata.rowsets.drop fidx).take (last_pos + 1 - fidx) ∧
    ((NonPk.apply_compaction_log cfg op s).2).metadata.rowsets
      = (if op.outputWithRows then
           s.metadata.rowsets.take fidx ++
             [{ op.output_rowsetD with id := s.metadata.next_rowset_id }] ++
             s.metadata.rowsets.drop (fidx + (last_pos + 1 - fidx))
         else
           s.metadata.rowsets.take fidx ++
             s.metadata.rowsets.drop (fidx + (last_pos + 1 - fidx))) ∧
    ((NonPk.apply_compaction_log cfg op s).2).metadata.next_rowset_id
      = (if op.outputWithRows then
           s.metadata.next_rowset_id + op.output_rowsetD.segments_size
         else s.metadata.next_rowset_id) ∧
    ((NonPk.apply_compaction_log cfg op s).2).metadata.cumulative_point
      = s.metadata.cumulative_point ∧
    (∃ msg, (NonPk.apply_compaction_log cfg op s).1 = .internalError msg) := by
  unfold NonPk.apply_compaction_log at hfail ⊢
  rw [hin] at hfail ⊢
  dsimp only at hfail ⊢
  rw [hfind] at hfail ⊢
  dsimp only at hfail ⊢
  rw [hwalk] at hfail ⊢
  dsimp only at hfail ⊢
  rw [hst] at hfail ⊢
  simp only [Bool.false_eq_true, if_false] at hfail ⊢
  cases ho : op.outputWithRows <;>
    simp only [ho, Bool.true_eq_false, Bool.false_eq_true, if_true, if_false] at hfail ⊢ <;>
    split_ifs at hfail ⊢ with h1 <;>
    first
      | (exact absurd rfl hfail)
      | (exact ⟨rfl, rfl, rfl, rfl, _, rfl⟩)

/-- Metadata whose cumulative point (5) is out of range for its single
rowset - the situation in which compacting away the only rowset trips the
cumulative-point overflow guard. -/
def c10meta : TabletMetadata :=
  { id := 7, version := 5, schema := 0, enable_persistent_index := false,
    rowsets := [{ id := 0, segments_size := 1, num_rows := 5, has_delete_predicate := false }],
    next_rowset_id := 1, cumulative_point := 5, delvec_meta := none,
    compaction_inputs := [], source_schema := none }

/-- Non-PK applier state over `c10meta`. -/
def c10s : NonPkState := { metadata := c10meta, new_version := 6 }

/-- Compaction consuming the only rowset with no output. -/
def c10op : OpCompaction := { input_rowsets := [0], output_rowset := none }

theorem c10_theorem_witness :
    c10op.input_rowsets = 0 :: [] ∧
    cfg0.enable_size_tiered_compaction_strategy = false ∧
    List.findIdx? (fun r => r.id == 0) c10s.metadata.rowsets = some 0 ∧
    NonPk.walk c10s.metadata.rowsets [] 0 = .ok 0 ∧
    (NonPk.apply_compaction_log cfg0 c10op c10s).1 ≠ .ok ∧
    (((NonPk.apply_compaction_log cfg0 c10op c10s).2).metadata.compaction_inputs
        = c10s.metadata.compaction_inputs ++
            (c10s.metadata.rowsets.drop 0).take (0 + 1 - 0) ∧
     ((NonPk.apply_compaction_log cfg0 c10op c10s).2).metadata.cumulative_point
        = c10s.metadata.cumulative_point) :=
  ⟨by decide, rfl, by decide, rfl, by decide,
   (c10_theorem cfg0 c10op c10s 0 [] 0 0 (by decide) rfl (by decide) rfl (by decide)).1,
   (c10_theorem cfg0 c10op c10s 0 [] 0 0 (by decide) rfl (by decide) rfl (by decide)).2.2.2.1⟩

/-! ## C3: compaction adjacency failure is atomic -/

/-- In a list with pairwise-distinct ids, the first index whose id equals
`tid` is exactly the (unique) position holding a rowset with that id. -/
theorem findIdx?_of_nodup (l : List RowsetMetadata) (tid q : Nat) (r : RowsetMetadata)
    (hnd : List.Pairwise (fun a b => a.id ≠ b.id) l)
    (hq : l[q]? = some r) (hid : r.id = tid) :
    List.findIdx? (fun x => x.id == tid) l = some q := by
  obtain ⟨hlen, hget⟩ := List.getElem?_eq_some_iff.mp hq
  rw [List.findIdx?_eq_some_iff_getElem]
  refine ⟨hlen, ?_, ?_⟩
  · simp [hget, hid]
  · intro j hj
    have hne := List.pairwise_iff_getElem.mp hnd j q (Nat.lt_trans hj hlen) hlen hj
    simp only [hget] at hne
    simp [hid ▸ hne]

theorem findFrom_of_nodup (l : List RowsetMetadata) (tid start q : Nat) (r : RowsetMetadata)
    (hnd : List.Pairwise (fun a b => a.id ≠ b.id) l)
    (hq : l[q]? = some r) (hid : r.id = tid) (hstart : start ≤ q) :
    NonPk.findFrom l start tid = some q := by
  unfold NonPk.findFrom
  have h1 : (l.drop start)[q - start]? = some r := by
    rw [List.getElem?_drop]
    rw [Nat.add_sub_cancel' hstart]
    exact hq
  have hnd' : List.Pairwise (fun a b => a.id ≠ b.id) (l.drop start) :=
    hnd.sublist (List.drop_sublist start l)
  rw [findIdx?_of_nodup (l.drop start) tid (q - start) r hnd' h1 hid]
  simp
  omega

/-- With pairwise-distinct ids, if the remaining input ids occur at
strictly increasing positions that are not the consecutive run
`pre+1, pre+2, ...`, the walk fails with the adjacency error. -/
theorem walk_gap (l : List RowsetMetadata)
    (hnd : List.Pairwise (fun a b => a.id ≠ b.id) l) :
    ∀ (tids qs : List Nat) (p : Nat),
    matchesAt l tids qs = true →
    ascFrom p qs = true →
    consecFrom p qs = false →
    NonPk.walk l tids p = .error msg_not_adjacent := by
  intro tids
  induction tids with
  | nil =>
    intro qs p hm ha hc
    cases qs with
    | nil => simp [consecFrom] at hc
    | cons q qs' => simp [matchesAt] at hm
  | cons tid rest ih =>
    intro qs p hm ha hc
    cases qs with
    | nil => simp [matchesAt] at hm
    | cons q qs' =>
      simp only [matchesAt, Bool.and_eq_true] at hm
      obtain ⟨hm1, hm2⟩ := hm
      obtain ⟨r, hr, hrid⟩ : ∃ r, l[q]? = some r ∧ r.id = tid := by
        cases hq : l.get? q with
        | none => rw [hq] at hm1; simp at hm1
        | some r =>
          rw [hq] at hm1
          refine ⟨r, ?_, by simpa using hm1⟩
          rw [← List.get?_eq_getElem?]
          exact hq
      simp only [ascFrom, Bool.and_eq_true, decide_eq_true_eq] at ha
      obtain ⟨hpq, ha'⟩ := ha
      unfold NonPk.walk
      rw [findFrom_of_nodup l tid (p + 1) q r hnd hr hrid (by omega)]
      dsimp only
      by_cases hqe : q = p + 1
      · subst hqe
        rw [if_pos rfl]
        have hc' : consecFrom (p + 1) qs' = false := by
          simp only [consecFrom] at hc
          simpa using hc
        exact ih qs' (p + 1) hm2 ha' hc'
      · rw [if_neg hqe]

/-- C3: for a non-PK compaction op whose input ids are all present in
`metadata.rowsets` at strictly increasing positions (the first at `p0`,
the rest at `qs`) that are NOT consecutive, the handler fails with
`InternalError("input rowset position not adjacent")` and returns the
state completely unchanged - the adjacency check runs before any
mutation. -/
theorem c3_theorem (cfg : ApplierConfig) (op : OpCompaction) (s : NonPkState)
    (id0 : Nat) (rest : List Nat) (p0 : Nat) (qs : List Nat) (r0 : RowsetMetadata)
    (hin : op.input_rowsets = id0 :: rest)
    (hnd : List.Pairwise (fun a b => a.id ≠ b.id) s.metadata.rowsets)
    (h0 : s.metadata.rowsets[p0]? = some r0) (h0id : r0.id = id0)
    (hm : matchesAt s.metadata.rowsets rest qs = true)
    (ha : ascFrom p0 qs = true)
    (hc : consecFrom p0 qs = false) :
    NonPk.apply_compaction_log cfg op s = (.internalError msg_not_adjacent, s) := by
  unfold NonPk.apply_compaction_log
  rw [hin]
  dsimp only
  rw [findIdx?_of_nodup s.metadata.rowsets id0 p0 r0 hnd h0 h0id]
  dsimp only
  rw [walk_gap s.metadata.rowsets hnd rest qs p0 hm ha hc]

/-- Metadata with rowsets `[A, B, C, D]` of ids 1-4. -/
def c3meta : TabletMetadata :=
  { id := 7, version := 5, schema := 0, enable_persistent_index := false,
    rowsets := [{ id := 1, segments_size := 1, num_rows := 10, has_delete_predicate := false },
                { id := 2, segments_size := 1, num_rows := 10, has_delete_predicate := false },
                { id := 3, segments_size := 1, num_rows := 10, has_delete_predicate := false },
                { id := 4, segments_size := 1, num_rows := 10, has_delete_predicate := false }],
    next_rowset_id := 5, cumulative_point := 0, delvec_meta := none,
    compaction_inputs := [], source_schema := none }

/-- Non-PK applier state over `c3meta`. -/
def c3s : NonPkState := { metadata := c3meta, new_version := 6 }

/-- Compaction listing inputs `[A, C]` - present but not adjacent. -/
def c3op : OpCompaction := { input_rowsets := [1, 3], output_rowset := none }

/-- The rowset at position 0 (id 1). -/
def c3r0 : RowsetMetadata :=
  { id := 1, segments_size := 1, num_rows := 10, has_delete_predicate := false }

theorem c3_theorem_witness :
    c3op.input_rowsets = 1 :: [3] ∧
    List.Pairwise (fun a b => a.id ≠ b.id) c3s.metadata.rowsets ∧
    c3s.metadata.rowsets[0]? = some c3r0 ∧
    c3r0.id = 1 ∧
    matchesAt c3s.metadata.rowsets [3] [2] = true ∧
    ascFrom 0 [2] = true ∧
    consecFrom 0 [2] = false ∧
    NonPk.apply_compaction_log cfg0 c3op c3s = (.internalError msg_not_adjacent, c3s) :=
  ⟨by decide, by decide, by decide, by decide, by decide, by decide, by decide,
   c3_theorem cfg0 c3op c3s 1 [3] 0 [2] c3r0 (by decide) (by decide) (by decide) (by decide)
     (by decide) (by decide) (by decide)⟩

/-! ## C8: full-snapshot replication rebase -/

/-- The running maximum `new_next_rowset_id` of the full-replication loop
bounds its seed and the range end of every rebased rowset. -/
theorem foldl_max_le (l : List RowsetMetadata) (a : Nat) :
    a ≤ l.foldl (fun acc r => max acc (r.id + max 1 r.segments_size)) a ∧
    ∀ r ∈ l, r.id + max 1 r.segments_size
      ≤ l.foldl (fun acc r => max acc (r.id + max 1 r.segments_size)) a := by
  induction l generalizing a with
  | nil => exact ⟨Nat.le_refl a, by simp⟩
  | cons x xs ih =>
    rw [List.foldl_cons]
    obtain ⟨h1, h2⟩ := ih (max a (x.id + max 1 x.segments_size))
    refine ⟨le_trans (le_max_left _ _) h1, ?_⟩
    intro r hr
    rcases List.mem_cons.mp hr with rfl | hr'
    · exact le_trans (le_max_right _ _) h1
    · exact h2 r hr'

/-- When every delvec blob loads successfully, the delvec loop appends
each delete vector under `segment_id + off` in order. -/
theorem append_delvecs_ok (env : PkEnv) (ver : Int) (off : Nat) :
    ∀ (ds acc : List (Nat × Nat)),
    (∀ p ∈ ds, (env.delvecLoad ver p.2).1 = .ok) →
    Pk.append_delvecs env ver off ds acc
      = (.ok, acc ++ ds.map (fun p => (p.1 + off, (env.delvecLoad ver p.2).2))) := by
  intro ds
  induction ds with
  | nil => intro acc h; simp [Pk.append_delvecs]
  | cons d rest ih =>
    intro acc h
    obtain ⟨sid, blob⟩ := d
    unfold Pk.append_delvecs
    dsimp only
    rw [if_pos (h (sid, blob) (List.mem_cons_self _ _))]
    rw [ih _ (fun p hp => h p (List.mem_cons_of_mem _ hp))]
    simp

/-- C8: after a successful primary-key full-snapshot replication, every
new rowset is the replicated one with its id rebased by the pre-apply
`next_rowset_id` (hence every new id is at least that value), every delvec
is appended to the builder under `segment_id` plus the same pre-rebase
offset, the new `next_rowset_id` covers every rebased range `[id, id +
max(1, segments_size))`, the cumulative point is reset to 0, the old
rowsets are moved into `compaction_inputs` (replacing its previous
contents), and the tablet's primary index is unloaded once. -/
theorem c8_theorem (env : PkEnv) (op : OpReplication) (txn : Int) (s : PkState)
    (h1 : op.txn_meta.txn_state = .TXN_REPLICATED)
    (h2 : op.txn_meta.snapshot_version = s.new_version)
    (hinc : op.txn_meta.incremental_snapshot = false)
    (hload : ∀ p ∈ op.delvecs, (env.delvecLoad s.new_version p.2).1 = .ok) :
    (Pk.apply_replication_log env op txn s).1 = .ok ∧
    ((Pk.apply_replication_log env op txn s).2).metadata.rowsets
      = op.op_writes.map (Pk.rebase_rowset s.metadata.next_rowset_id) ∧
    (∀ r ∈ ((Pk.apply_replication_log env op txn s).2).metadata.rowsets,
        s.metadata.next_rowset_id ≤ r.id) ∧
    (∀ r ∈ ((Pk.apply_replication_log env op txn s).2).metadata.rowsets,
        r.id + max 1 r.segments_size
          ≤ ((Pk.apply_replication_log env op txn s).2).metadata.next_rowset_id) ∧
    s.metadata.next_rowset_id ≤ ((Pk.apply_replication_log env op txn s).2).metadata.next_rowset_id ∧
    ((Pk.apply_replication_log env op txn s).2).builder_delvecs
      = s.builder_delvecs ++ op.delvecs.map
          (fun p => (p.1 + s.metadata.next_rowset_id, (env.delvecLoad s.new_version p.2).2)) ∧
    ((Pk.apply_replication_log env op txn s).2).metadata.cumulative_point = 0 ∧
    ((Pk.apply_replication_log env op txn s).2).metadata.compaction_inputs = s.metadata.rowsets ∧
    ((Pk.apply_replication_log env op txn s).2).index_unloads = s.index_unloads + 1 := by
  have hd := append_delvecs_ok env s.new_version s.metadata.next_rowset_id op.delvecs
      s.builder_delvecs hload
  have hval : Pk.apply_replication_log env op txn s
      = (.ok,
         (match op.source_schema with
          | some sch => { s with
              metadata := { s.metadata with
                rowsets := op.op_writes.map (Pk.rebase_rowset s.metadata.next_rowset_id),
                delvec_meta := none,
                next_rowset_id := (op.op_writes.map (Pk.rebase_rowset s.metadata.next_rowset_id)).foldl
                  (fun acc r => max acc (r.id + max 1 r.segments_size)) s.metadata.next_rowset_id,
                cumulative_point := 0,
                compaction_inputs := s.metadata.rowsets,
                source_schema := some sch },
              builder_delvecs := s.builder_delvecs ++ op.delvecs.map
                  (fun p => (p.1 + s.metadata.next_rowset_id, (env.delvecLoad s.new_version p.2).2)),
              index_unloads := s.index_unloads + 1 }
          | none => { s with
              metadata := { s.metadata with
                rowsets := op.op_writes.map (Pk.rebase_rowset s.metadata.next_rowset_id),
                delvec_meta := none,
                next_rowset_id := (op.op_writes.map (Pk.rebase_rowset s.metadata.next_rowset_id)).foldl
                  (fun acc r => max acc (r.id + max 1 r.segments_size)) s.metadata.next_rowset_id,
                cumulative_point := 0,
                compaction_inputs := s.metadata.rowsets },
              builder_delvecs := s.builder_delvecs ++ op.delvecs.map
                  (fun p => (p.1 + s.metadata.next_rowset_id, (env.delvecLoad s.new_version p.2).2)),
              index_unloads := s.index_unloads + 1 })) := by
    unfold Pk.apply_replication_log
    cases hss : op.source_schema <;>
      simp [h1, h2, hinc, hd, hss]
  rw [hval]
  obtain ⟨hfold1, hfold2⟩ := foldl_max_le
      (op.op_writes.map (Pk.rebase_rowset s.metadata.next_rowset_id)) s.metadata.next_rowset_id
  have hmem : ∀ r ∈ op.op_writes.map (Pk.rebase_rowset s.metadata.next_rowset_id),
      s.metadata.next_rowset_id ≤ r.id := by
    intro r hr
    obtain ⟨w, -, rfl⟩ := List.mem_map.mp hr
    unfold Pk.rebase_rowset
    dsimp only
    omega
  cases hss : op.source_schema <;>
    exact ⟨rfl, rfl, hmem, hfold2, hfold1, rfl, rfl, rfl, rfl⟩

/-- Base metadata for the C8 witness: one old rowset, `next_rowset_id`
20. -/
def c8meta : TabletMetadata :=
  { id := 3, version := 9, schema := 0, enable_persistent_index := false,
    rowsets := [{ id := 7, segments_size := 1, num_rows := 4, has_delete_predicate := false }],
    next_rowset_id := 20, cumulative_point := 1, delvec_meta := some 5,
    compaction_inputs := [], source_schema := none }

/-- PK applier state over `c8meta` at new version 10. -/
def c8s : PkState := Pk.construct c8meta 10

/-- Full-snapshot replication op with rowset ids 0, 1 and 5 and one
delvec blob for segment 2. -/
def c8rep : OpReplication :=
  { txn_meta := { txn_state := .TXN_REPLICATED, snapshot_version := 10,
                  incremental_snapshot := false, txn_id := 4 },
    op_writes :=
      [{ rowset := some { id := 0, segments_size := 1, num_rows := 8, has_delete_predicate := false }, dels_size := 0 },
       { rowset := some { id := 1, segments_size := 2, num_rows := 9, has_delete_predicate := false }, dels_size := 0 },
       { rowset := some { id := 5, segments_size := 1, num_rows := 3, has_delete_predicate := false }, dels_size := 0 }],
    delvecs := [(2, 9)], source_schema := none }

theorem c8_theorem_witness :
    c8rep.txn_meta.txn_state = .TXN_REPLICATED ∧
    c8rep.txn_meta.snapshot_version = c8s.new_version ∧
    c8rep.txn_meta.incremental_snapshot = false ∧
    (∀ p ∈ c8rep.delvecs, (envOk.delvecLoad c8s.new_version p.2).1 = .ok) ∧
    (Pk.apply_replication_log envOk c8rep 4 c8s).1 = .ok ∧
    ((Pk.apply_replication_log envOk c8rep 4 c8s).2).metadata.rowsets
      = c8rep.op_writes.map (Pk.rebase_rowset c8s.metadata.next_rowset_id) ∧
    ((Pk.apply_replication_log envOk c8rep 4 c8s).2).metadata.cumulative_point = 0 ∧
    ((Pk.apply_replication_log envOk c8rep 4 c8s).2).metadata.compaction_inputs
      = c8s.metadata.rowsets ∧
    ((Pk.apply_replication_log envOk c8rep 4 c8s).2).index_unloads = c8s.index_unloads + 1 :=
  ⟨rfl, rfl, rfl, by decide, (c8_theorem envOk c8rep 4 c8s rfl rfl rfl (by decide)).1,
   (c8_theorem envOk c8rep 4 c8s rfl rfl rfl (by decide)).2.1,
   (c8_theorem envOk c8rep 4 c8s rfl rfl rfl (by decide)).2.2.2.2.2.2.1,
   (c8_theorem envOk c8rep 4 c8s rfl rfl rfl (by decide)).2.2.2.2.2.2.2.1,
   (c8_theorem envOk c8rep 4 c8s rfl rfl rfl (by decide)).2.2.2.2.2.2.2.2⟩

/-! ## C2: rowset-id range disjointness -/

/-- Generalised invariant: the rowsets, the compaction inputs and a ghost
list `aux` of rowsets temporarily set aside (used for the full-replication
swap) are pairwise range-disjoint and all their ranges end at or below
`next_rowset_id`. -/
def InvAux (m : TabletMetadata) (aux : List RowsetMetadata) : Prop :=
  List.Pairwise rdisj (m.rowsets ++ (m.compaction_inputs ++ aux)) ∧
  ∀ r ∈ m.rowsets ++ (m.compaction_inputs ++ aux), rEnd r ≤ m.next_rowset_id

theorem rdisj_symm : ∀ {a b : RowsetMetadata}, rdisj a b → rdisj b a :=
  fun h => Or.symm h

theorem metaInv_iff_invAux (m : TabletMetadata) : MetaInv m ↔ InvAux m [] := by
  simp [MetaInv, InvAux, allRowsets]

theorem InvAux_of_fields (m m' : TabletMetadata) (aux : List RowsetMetadata)
    (hr : m'.rowsets = m.rowsets) (hc : m'.compaction_inputs = m.compaction_inputs)
    (hn : m'.next_rowset_id = m.next_rowset_id) (h : InvAux m aux) : InvAux m' aux := by
  unfold InvAux at *
  rw [hr, hc, hn]
  exact h

/-- Appending a fresh rowset whose range starts at `next_rowset_id` and
advancing `next_rowset_id` past its end preserves the invariant. -/
theorem writeNPK_inv (w : OpWrite) (s : NonPkState) (aux : List RowsetMetadata)
    (h : InvAux s.metadata aux) :
    InvAux ((NonPk.apply_write_log w s).2).metadata aux := by
  unfold NonPk.apply_write_log
  cases hr : w.rowset with
  | none => exact h
  | some r =>
    dsimp only
    split
    case isFalse => exact h
    case isTrue =>
      obtain ⟨hp, hb⟩ := h
      dsimp only
      constructor
      · rw [List.append_assoc]
        show List.Pairwise rdisj (s.metadata.rowsets ++
          ({ r with id := s.metadata.next_rowset_id } :: (s.metadata.compaction_inputs ++ aux)))
        rw [List.pairwise_middle rdisj_symm]
        rw [List.pairwise_cons]
        constructor
        · intro y hy
          right
          exact hb y hy
        · exact hp
      · intro x hx
        rw [List.append_assoc] at hx
        have hx' : x ∈ s.metadata.rowsets ++
            ({ r with id := s.metadata.next_rowset_id } :: (s.metadata.compaction_inputs ++ aux)) := hx
        rcases List.mem_append.mp hx' with h1 | h2
        · exact le_trans (hb x (List.mem_append.mpr (Or.inl h1))) (Nat.le_add_right _ _)
        · rcases List.mem_cons.mp h2 with rfl | h3
          · simp [rEnd]
          · exact le_trans (hb x (List.mem_append.mpr (Or.inr h3))) (Nat.le_add_right _ _)

theorem perm_splice {α : Type} (T B D C A : List α) :
    List.Perm ((T ++ D) ++ ((C ++ B) ++ A)) ((T ++ (B ++ D)) ++ (C ++ A)) := by
  have h1 : (T ++ D) ++ ((C ++ B) ++ A) = T ++ (D ++ (C ++ (B ++ A))) := by
    simp [List.append_assoc]
  have h2 : (T ++ (B ++ D)) ++ (C ++ A) = T ++ (B ++ (D ++ (C ++ A))) := by
    simp [List.append_assoc]
  rw [h1, h2]
  apply List.Perm.append_left
  have hin : List.Perm (B ++ (D ++ (C ++ A))) (D ++ (C ++ (B ++ A))) := by
    have e1 : List.Perm (B ++ (D ++ (C ++ A))) ((D ++ (C ++ A)) ++ B) :=
      List.perm_append_comm
    have e2 : (D ++ (C ++ A)) ++ B = D ++ (C ++ (A ++ B)) := by
      simp [List.append_assoc]
    have e3 : List.Perm (D ++ (C ++ (A ++ B))) (D ++ (C ++ (B ++ A))) :=
      List.Perm.append_left _ (List.Perm.append_left _ List.perm_append_comm)
    exact (e2 ▸ e1).trans e3
  exact hin.symm

theorem perm_splice_out {α : Type} (T B D C A : List α) (x : α) :
    List.Perm ((T ++ ([x] ++ D)) ++ ((C ++ B) ++ A))
      (x :: ((T ++ (B ++ D)) ++ (C ++ A))) := by
  have h1 : (T ++ ([x] ++ D)) ++ ((C ++ B) ++ A)
      = T ++ (x :: (D ++ ((C ++ B) ++ A))) := by
    simp [List.append_assoc]
  rw [h1]
  have e1 : List.Perm (T ++ (x :: (D ++ ((C ++ B) ++ A))))
      (x :: (T ++ (D ++ ((C ++ B) ++ A)))) := List.perm_middle
  have e2 : x :: (T ++ (D ++ ((C ++ B) ++ A)))
      = x :: ((T ++ D) ++ ((C ++ B) ++ A)) := by
    simp [List.append_assoc]
  have e3 : List.Perm (x :: ((T ++ D) ++ ((C ++ B) ++ A)))
      (x :: ((T ++ (B ++ D)) ++ (C ++ A))) :=
    List.Perm.cons x (perm_splice T B D C A)
  exact (e2 ▸ e1).trans e3

theorem outputWithRows_iff (op : OpCompaction) :
    op.outputWithRows = true ↔
      ∃ out, op.output_rowset = some out ∧ 0 < out.num_rows := by
  unfold OpCompaction.outputWithRows
  cases ho : op.output_rowset <;> simp

theorem invaux_core_noout (T B D C A : List RowsetMetadata) (next : Nat)
    (hp : List.Pairwise rdisj ((T ++ (B ++ D)) ++ (C ++ A)))
    (hb : ∀ r ∈ (T ++ (B ++ D)) ++ (C ++ A), rEnd r ≤ next) :
    List.Pairwise rdisj ((T ++ D) ++ ((C ++ B) ++ A)) ∧
    ∀ r ∈ (T ++ D) ++ ((C ++ B) ++ A), rEnd r ≤ next := by
  constructor
  · exact (List.Perm.pairwise_iff rdisj_symm (perm_splice T B D C A)).mpr hp
  · intro r hr
    exact hb r ((perm_splice T B D C A).mem_iff.mp hr)

theorem invaux_core_out (T B D C A : List RowsetMetadata) (next : Nat)
    (out : RowsetMetadata) (hseg : 1 ≤ out.segments_size)
    (hp : List.Pairwise rdisj ((T ++ (B ++ D)) ++ (C ++ A)))
    (hb : ∀ r ∈ (T ++ (B ++ D)) ++ (C ++ A), rEnd r ≤ next) :
    List.Pairwise rdisj
      (((T ++ [{ out with id := next }]) ++ D) ++ ((C ++ B) ++ A)) ∧
    ∀ r ∈ ((T ++ [{ out with id := next }]) ++ D) ++ ((C ++ B) ++ A),
      rEnd r ≤ next + out.segments_size := by
  have heq : ((T ++ [{ out with id := next }]) ++ D) ++ ((C ++ B) ++ A)
      = (T ++ ([{ out with id := next }] ++ D)) ++ ((C ++ B) ++ A) := by
    simp [List.append_assoc]
  rw [heq]
  have hperm := perm_splice_out T B D C A ({ out with id := next })
  constructor
  · refine (List.Perm.pairwise_iff rdisj_symm hperm).mpr ?_
    rw [List.pairwise_cons]
    exact ⟨fun y hy => Or.inr (hb y hy), hp⟩
  · intro r hr
    rcases List.mem_cons.mp (hperm.mem_iff.mp hr) with rfl | hr'
    · show rEnd { out with id := next } ≤ next + out.segments_size
      simp [rEnd, Nat.max_eq_right hseg]
    · exact le_trans (hb r hr') (Nat.le_add_right _ _)

/-- Splicing a compaction (inputs moved to `compaction_inputs`, output -
if it has rows AND at least one segment - inserted under a fresh id)
preserves the invariant. -/
theorem compactionNPK_inv (cfg : ApplierConfig) (op : OpCompaction) (s : NonPkState)
    (aux : List RowsetMetadata) (s' : NonPkState)
    (hout : ∀ out, op.output_rowset = some out → 0 < out.num_rows → 1 ≤ out.segments_size)
    (h : InvAux s.metadata aux)
    (happly : NonPk.apply_compaction_log cfg op s = (.ok, s')) :
    InvAux s'.metadata aux := by
  unfold NonPk.apply_compaction_log at happly
  cases hin : op.input_rowsets with
  | nil =>
    rw [hin] at happly
    simp only [Prod.mk.injEq, true_and] at happly
    rw [← happly]
    exact h
  | cons id0 rest =>
    rw [hin] at happly
    dsimp only at happly
    cases hf : List.findIdx? (fun r => r.id == id0) s.metadata.rowsets with
    | none => rw [hf] at happly; simp at happly
    | some fidx =>
      rw [hf] at happly
      dsimp only at happly
      cases hw : NonPk.walk s.metadata.rowsets rest fidx with
      | error e => rw [hw] at happly; simp at happly
      | ok last_pos =>
        rw [hw] at happly
        dsimp only at happly
        generalize (if fidx ≥ s.metadata.cumulative_point then fidx
            else if s.metadata.cumulative_point ≥ (id0 :: rest).length then
              s.metadata.cumulative_point - (id0 :: rest).length
            else 0) = ncp0 at happly
        obtain ⟨hp, hb⟩ := h
        have hdd : s.metadata.rowsets.drop (fidx + (last_pos + 1 - fidx))
            = (s.metadata.rowsets.drop fidx).drop (last_pos + 1 - fidx) :=
          (List.drop_drop (last_pos + 1 - fidx) fidx s.metadata.rowsets).symm
        have hrs : s.metadata.rowsets
            = s.metadata.rowsets.take fidx ++
                ((s.metadata.rowsets.drop fidx).take (last_pos + 1 - fidx) ++
                  s.metadata.rowsets.drop (fidx + (last_pos + 1 - fidx))) := by
          rw [hdd, List.take_append_drop, List.take_append_drop]
        rw [hrs] at hp hb
        cases ho : op.outputWithRows <;>
          simp only [ho, Bool.true_eq_false, Bool.false_eq_true, if_true, if_false] at happly
        · -- no output rowset (or no rows): plain erase of the input block
          have hcore := invaux_core_noout
            (s.metadata.rowsets.take fidx)
            ((s.metadata.rowsets.drop fidx).take (last_pos + 1 - fidx))
            (s.metadata.rowsets.drop (fidx + (last_pos + 1 - fidx)))
            s.metadata.compaction_inputs aux s.metadata.next_rowset_id hp hb
          split at happly
          · rw [Prod.mk.injEq] at happly
            rw [← happly.2]
            exact ⟨hcore.1, hcore.2⟩
          · split at happly
            · simp at happly
            · rw [Prod.mk.injEq] at happly
              rw [← happly.2]
              exact ⟨hcore.1, hcore.2⟩
        · -- output rowset with rows: splice in the rebased output
          obtain ⟨out, hsome, hrows⟩ := (outputWithRows_iff op).mp ho
          have hseg := hout out hsome hrows
          have hD : op.output_rowsetD = out := by
            unfold OpCompaction.output_rowsetD
            rw [hsome]
            rfl
          rw [hD] at happly
          have hcore := invaux_core_out
            (s.metadata.rowsets.take fidx)
            ((s.metadata.rowsets.drop fidx).take (last_pos + 1 - fidx))
            (s.metadata.rowsets.drop (fidx + (last_pos + 1 - fidx)))
            s.metadata.compaction_inputs aux s.metadata.next_rowset_id out hseg hp hb
          split at happly
          · rw [Prod.mk.injEq] at happly
            rw [← happly.2]
            exact hcore
          · split at happly
            · simp at happly
            · rw [Prod.mk.injEq] at happly
              rw [← happly.2]
              exact hcore

theorem status_pair_eta (p : Status × NonPkState) (h : p.1 = .ok) : p = (.ok, p.2) := by
  rw [← h]

theorem nonpk_write_ok (w : OpWrite) (s : NonPkState) :
    (NonPk.apply_write_log w s).1 = .ok := by
  unfold NonPk.apply_write_log
  cases hr : w.rowset
  · rfl
  · dsimp only
    split <;> rfl

theorem nonpk_writes_ok (ws : List OpWrite) (s : NonPkState) :
    (NonPk.apply_writes ws s).1 = .ok := by
  induction ws generalizing s with
  | nil => rfl
  | cons w rest ih =>
    unfold NonPk.apply_writes
    dsimp only
    rw [if_pos (nonpk_write_ok w s)]
    exact ih _

theorem writesNPK_inv (ws : List OpWrite) (s : NonPkState) (aux : List RowsetMetadata)
    (h : InvAux s.metadata aux) :
    InvAux ((NonPk.apply_writes ws s).2).metadata aux := by
  induction ws generalizing s with
  | nil => exact h
  | cons w rest ih =>
    unfold NonPk.apply_writes
    dsimp only
    split
    · exact ih _ (writeNPK_inv w s aux h)
    · exact writeNPK_inv w s aux h

theorem invaux_perm (m m' : TabletMetadata) (aux aux' : List RowsetMetadata)
    (hperm : List.Perm (m.rowsets ++ (m.compaction_inputs ++ aux))
      (m'.rowsets ++ (m'.compaction_inputs ++ aux')))
    (hn : m'.next_rowset_id = m.next_rowset_id)
    (h : InvAux m aux) : InvAux m' aux' := by
  obtain ⟨hp, hb⟩ := h
  refine ⟨(List.Perm.pairwise_iff rdisj_symm hperm).mp hp, ?_⟩
  intro r hr
  rw [hn]
  exact hb r (hperm.mem_iff.mpr hr)

theorem invaux_sub_ci (m : TabletMetadata) (aux newci : List RowsetMetadata)
    (h : InvAux m (newci ++ aux)) :
    List.Pairwise rdisj (m.rowsets ++ (newci ++ aux)) ∧
    ∀ r ∈ m.rowsets ++ (newci ++ aux), rEnd r ≤ m.next_rowset_id := by
  obtain ⟨hp, hb⟩ := h
  have hsub : (m.rowsets ++ (newci ++ aux)).Sublist
      (m.rowsets ++ (m.compaction_inputs ++ (newci ++ aux))) :=
    List.Sublist.append_left (List.sublist_append_right _ _) _
  exact ⟨List.Pairwise.sublist hsub hp, fun r hr => hb r (hsub.subset hr)⟩

theorem replicationNPK_inv (op : OpReplication) (s : NonPkState) (aux : List RowsetMetadata)
    (h : InvAux s.metadata aux) :
    InvAux ((NonPk.apply_replication_log op s).2).metadata aux := by
  unfold NonPk.apply_replication_log
  split
  · exact h
  · split
    · exact h
    · (try dsimp only)
      by_cases hinc : op.txn_meta.incremental_snapshot = true
      · rw [if_pos hinc]
        have hw := writesNPK_inv op.op_writes s aux h
        split
        · cases hss : op.source_schema
          · exact hw
          · exact InvAux_of_fields _ _ aux rfl rfl rfl hw
        · exact hw
      · rw [if_neg hinc]
        (try dsimp only)
        have hmid : InvAux ({ s with metadata :=
            { s.metadata with rowsets := [] } }).metadata
            (s.metadata.rowsets ++ aux) := by
          refine invaux_perm s.metadata _ aux _ ?_ rfl h
          have e1 : List.Perm (s.metadata.rowsets ++ (s.metadata.compaction_inputs ++ aux))
              ((s.metadata.compaction_inputs ++ aux) ++ s.metadata.rowsets) :=
            List.perm_append_comm
          have e2 : (s.metadata.compaction_inputs ++ aux) ++ s.metadata.rowsets
              = s.metadata.compaction_inputs ++ (aux ++ s.metadata.rowsets) :=
            List.append_assoc _ _ _
          have e3 : List.Perm (s.metadata.compaction_inputs ++ (aux ++ s.metadata.rowsets))
              (s.metadata.compaction_inputs ++ (s.metadata.rowsets ++ aux)) :=
            List.Perm.append_left _ List.perm_append_comm
          exact (e2 ▸ e1).trans e3
        have hw2 := writesNPK_inv op.op_writes
            { s with metadata := { s.metadata with rowsets := [] } }
            (s.metadata.rowsets ++ aux) hmid
        rw [if_pos (nonpk_writes_ok op.op_writes _)]
        (try dsimp only)
        rw [if_pos rfl]
        have hfin := invaux_sub_ci
            ((NonPk.apply_writes op.op_writes
              { s with metadata := { s.metadata with rowsets := [] } }).2).metadata
            aux s.metadata.rowsets hw2
        cases hss : op.source_schema
        · exact hfin
        · exact hfin

/-- Side condition of the amended C2: a compaction output rowset that has
rows also has at least one segment (the code advances `next_rowset_id` by
`segments_size`, not `max(1, segments_size)`, when splicing the output
in). -/
def compactionOutputOk (log : TxnLog) : Bool :=
  match log.op_compaction with
  | some op =>
    match op.output_rowset with
    | some out => !(decide (0 < out.num_rows)) || decide (1 ≤ out.segments_size)
    | none => true
  | none => true

theorem compactionOutputOk_spec (log : TxnLog) (op : OpCompaction)
    (h : compactionOutputOk log = true) (hc : log.op_compaction = some op) :
    ∀ out, op.output_rowset = some out → 0 < out.num_rows → 1 ≤ out.segments_size := by
  intro out hsome hrows
  unfold compactionOutputOk at h
  rw [hc] at h
  dsimp only at h
  rw [hsome] at h
  simp only [Bool.or_eq_true, Bool.not_eq_true', decide_eq_false_iff_not, decide_eq_true_eq] at h
  rcases h with h | h
  · exact absurd hrows h
  · exact h

theorem alterNPK_inv (m : TabletMetadata) (op : OpAlterMetadata)
    (aux : List RowsetMetadata) (h : InvAux m aux) :
    InvAux ((apply_alter_meta_log m op).2) aux := by
  obtain ⟨-, -, hr, hc, hn⟩ := alter_meta_fields m op
  exact InvAux_of_fields _ _ aux hr hc hn h

theorem invaux_id_lt (m : TabletMetadata) (h : InvAux m []) :
    ∀ r ∈ allRowsets m, r.id < m.next_rowset_id := by
  intro r hr
  have hm : r ∈ m.rowsets ++ (m.compaction_inputs ++ []) := by
    simpa [allRowsets] using hr
  have hb := h.2 r hm
  have h1 : 1 ≤ max 1 r.segments_size := le_max_left _ _
  unfold rEnd at hb
  omega

/-- C2 amended: after every successful non-primary-key apply of a log
that carries no schema-change op and whose compaction output rowset (if
any, with rows) has at least one segment, the id ranges
`[id, id + max(1, segments_size))` of all rowsets in
`metadata.rowsets ++ metadata.compaction_inputs` are pairwise disjoint and
end at or below `next_rowset_id`, and `next_rowset_id` strictly exceeds
every used rowset id.  The schema-change exclusion is forced by the C5
finding (its handler overwrites `next_rowset_id` with the last op rowset's
range end); the segment-count hypothesis is forced by the C2
counterexample (a zero-segment output advances `next_rowset_id` by 0). -/
theorem c2_amended (cfg : ApplierConfig) (log : TxnLog) (s s' : NonPkState)
    (hsc : log.op_schema_change = none)
    (hout : compactionOutputOk log = true)
    (hinv : MetaInv s.metadata)
    (happly : NonPk.apply cfg log s = (.ok, s')) :
    MetaInv s'.metadata ∧
    ∀ r ∈ allRowsets s'.metadata, r.id < s'.metadata.next_rowset_id := by
  rw [metaInv_iff_invAux] at hinv
  unfold NonPk.apply at happly
  rw [hsc] at happly
  dsimp only at happly
  set r1 := (match log.op_write with
    | some w => NonPk.apply_write_log w s
    | none => ((Status.ok, s) : Status × NonPkState)) with hr1
  have h1ok : r1.1 = .ok := by
    rw [hr1]
    cases hw : log.op_write
    · rfl
    · exact nonpk_write_ok _ _
  have h1inv : InvAux r1.2.metadata [] := by
    rw [hr1]
    cases hw : log.op_write
    · exact hinv
    · exact writeNPK_inv _ s [] hinv
  rw [h1ok] at happly
  simp only [ne_eq, not_true_eq_false, if_false] at happly
  set r2 := (match log.op_compaction with
    | some op => NonPk.apply_compaction_log cfg op r1.2
    | none => ((Status.ok, r1.2) : Status × NonPkState)) with hr2
  have h2inv : r2.1 = .ok → InvAux r2.2.metadata [] := by
    rw [hr2]
    cases hc : log.op_compaction
    · intro _; exact h1inv
    · intro hok
      exact compactionNPK_inv cfg _ r1.2 [] _
        (compactionOutputOk_spec log _ hout hc) h1inv (status_pair_eta _ hok)
  by_cases h2ok : r2.1 = .ok
  case neg =>
    rw [if_pos h2ok] at happly
    exact absurd (by rw [happly]) h2ok
  case pos =>
    rw [h2ok] at happly
    simp only [ne_eq, not_true_eq_false, if_false] at happly
    set r4 := (match log.op_replication with
      | some op => NonPk.apply_replication_log op r2.2
      | none => ((Status.ok, r2.2) : Status × NonPkState)) with hr4
    have h4inv : InvAux r4.2.metadata [] := by
      rw [hr4]
      cases hrp : log.op_replication
      · exact h2inv h2ok
      · exact replicationNPK_inv _ r2.2 [] (h2inv h2ok)
    by_cases h4ok : r4.1 = .ok
    case neg =>
      rw [if_pos h4ok] at happly
      exact absurd (by rw [happly]) h4ok
    case pos =>
      rw [h4ok] at happly
      simp only [ne_eq, not_true_eq_false, if_false] at happly
      have hfin : InvAux s'.metadata [] := by
        cases ham : log.op_alter_metadata with
        | none =>
          rw [ham] at happly
          dsimp only at happly
          rw [Prod.mk.injEq] at happly
          rw [← happly.2]
          exact h4inv
        | some aop =>
          rw [ham] at happly
          dsimp only at happly
          rw [Prod.mk.injEq] at happly
          rw [← happly.2]
          obtain ⟨-, -, hrw, hcw, hnw⟩ := alter_meta_fields r4.2.metadata aop
          exact InvAux_of_fields _ _ [] hrw hcw hnw h4inv
      refine ⟨(metaInv_iff_invAux s'.metadata).mpr hfin, invaux_id_lt s'.metadata hfin⟩

/-- Metadata satisfying the invariant: one rowset `[0, 1)`, next id 1. -/
def c2meta : TabletMetadata :=
  { id := 7, version := 5, schema := 0, enable_persistent_index := false,
    rowsets := [{ id := 0, segments_size := 1, num_rows := 5, has_delete_predicate := false }],
    next_rowset_id := 1, cumulative_point := 0, delvec_meta := none,
    compaction_inputs := [], source_schema := none }

/-- Compaction replacing the only rowset by an output with rows but ZERO
segments. -/
def c2op : OpCompaction :=
  { input_rowsets := [0],
    output_rowset := some { id := 50, segments_size := 0, num_rows := 7,
                            has_delete_predicate := false } }

/-- Log carrying only `c2op`. -/
def c2log : TxnLog :=
  { txn_id := 1, op_write := none, op_compaction := some c2op,
    op_schema_change := none, op_alter_metadata := none, op_replication := none }

/-- C2 counterexample: after a successful compaction whose output rowset
has rows but zero segments, the code advances `next_rowset_id` by
`segments_size = 0`, so the output rowset receives id 1 while
`next_rowset_id` stays 1: `next_rowset_id` does NOT strictly exceed every
used rowset id, exactly the case the claim asserts to hold. -/
theorem c2_counterexample :
    MetaInv c2meta ∧
    (NonPk.apply cfg0 c2log (NonPk.construct c2meta 6)).1 = .ok ∧
    ((NonPk.apply cfg0 c2log (NonPk.construct c2meta 6)).2).metadata.next_rowset_id = 1 ∧
    ∃ r ∈ allRowsets ((NonPk.apply cfg0 c2log (NonPk.construct c2meta 6)).2).metadata,
      ¬(r.id < ((NonPk.apply cfg0 c2log (NonPk.construct c2meta 6)).2).metadata.next_rowset_id) := by
  decide

/-- Write log used by the C2 witness. -/
def c2wlog : TxnLog :=
  { txn_id := 1,
    op_write := some { rowset := some { id := 9, segments_size := 2, num_rows := 4,
                                        has_delete_predicate := false },
                       dels_size := 0 },
    op_compaction := none, op_schema_change := none,
    op_alter_metadata := none, op_replication := none }

theorem c2_amended_witness :
    c2wlog.op_schema_change = none ∧
    compactionOutputOk c2wlog = true ∧
    MetaInv c2meta ∧
    NonPk.apply cfg0 c2wlog (NonPk.construct c2meta 6)
      = (.ok, (NonPk.apply cfg0 c2wlog (NonPk.construct c2meta 6)).2) ∧
    (MetaInv ((NonPk.apply cfg0 c2wlog (NonPk.construct c2meta 6)).2).metadata ∧
     ∀ r ∈ allRowsets ((NonPk.apply cfg0 c2wlog (NonPk.construct c2meta 6)).2).metadata,
       r.id < ((NonPk.apply cfg0 c2wlog (NonPk.construct c2meta 6)).2).metadata.next_rowset_id) :=
  ⟨rfl, rfl, by decide, by decide,
   c2_amended cfg0 c2wlog (NonPk.construct c2meta 6) _ rfl rfl (by decide) (by decide)⟩
